import Mathlib

/-!
# Interactive Simulation Controller (`www/index.js`)

A shallow embedding of the controller script of the Game of Life front end:
the frame driver `renderLoop`, the pause / single-step controls, the pointer
paint handlers, the zoom and auto-fit handlers and the two metrics timers.

Modelling conventions.

* The module-level `let` variables of the script are the fields of `State`,
  under their source names.
* The host scheduler is represented by two counters: the number of
  `requestAnimationFrame(renderLoop)` callbacks that are pending and the number
  of pending `requestAnimationFrame(drawUniverseCanvas)` callbacks.
* Every call into the engine (`universe.*`), every `putImageData` and every
  scheduling request is appended, in program order, to `State.trace`.
* The engine is external.  The only engine result that steers the script is the
  value returned by `universe.get`; it travels with the `pointerdown` event.
* `performance.now()` readings and the measured durations travel with the event
  that reads them, as natural numbers.
* The page coordinates of a pointer event are rationals; the handlers read them
  as doubles and compute `(page - offset) / CELL_SIZE | 0` in double
  arithmetic: `fl` rounds each result to the nearest double, ties to even, and
  `| 0` truncates and wraps to 32 bits.
* Canvas offsets, the viewport width and the wheel delta are integers; for the
  viewport width `x / y | 0` is truncated division followed by the 32-bit wrap.
* Text written to the console, to the rate indicator and to the pause button
  label is output only and is not part of the state.
-/

namespace GameOfLife

/-! ## Constants and engine values -/

/-- Grid width, `const WIDTH = 512`. -/
def WIDTH : Int := 512

/-- Grid height, `HEIGHT = 512`. -/
def HEIGHT : Int := 512

/-- The two values of the engine enumeration `Cell`. -/
inductive Cell where
  | Dead
  | Alive
  deriving DecidableEq

/-- The JavaScript conversion `z | 0` of an integer-valued number: wrap into the
signed 32-bit range. -/
def toInt32 (z : Int) : Int :=
  (z + 2147483648) % 4294967296 - 2147483648

/-- The expression `a / b | 0` for integer-valued `a` and `b`: the quotient is
truncated toward zero (a division by zero yields an infinity or NaN, which
`| 0` turns into `0`), then wrapped to 32 bits. -/
def divTrunc (a b : Int) : Int :=
  toInt32 (Int.tdiv a b)

/-- One externally visible call made by the script, in program order. -/
inductive Call where
  /-- The call `Universe.new(WIDTH, HEIGHT, CELL_SIZE)`. -/
  | new (w h cellSize : Int)
  /-- The call `universe.canvas()`. -/
  | canvas
  /-- The call `universe.tick()`. -/
  | tick
  /-- The call `universe.get(cx, cy)`. -/
  | get (cx cy : Int)
  /-- The call `universe.set(cx, cy, v)`. -/
  | set (cx cy : Int) (v : Cell)
  /-- The call `universe.resize(CELL_SIZE)`. -/
  | resize (cellSize : Int)
  /-- The call `ctx.putImageData` of `drawUniverseCanvas`: the view pointer used,
  the byte length of the view and the image width. -/
  | putImageData (ptr : Nat) (len width : Int)
  /-- The call `requestAnimationFrame(renderLoop)`. -/
  | rafLoop
  /-- The call `requestAnimationFrame(drawUniverseCanvas)`. -/
  | rafDraw
  deriving DecidableEq

/-! ## Controller state -/

/-- The module-level variables of `index.js`, the two DOM properties the script
writes and reads back (`canvas.width`, `canvas.height`, `tickButton.disabled`),
the host scheduler's pending callbacks and the trace of external calls. -/
structure State where
  CELL_SIZE : Int
  canvasWidth : Int
  canvasHeight : Int
  /-- Identifies the `universe.canvas()` call that produced the pointer: the
  length of the trace when that call was made. -/
  canvasPtr : Nat
  counter : Nat
  fpsCounter : Nat
  start : Nat
  fpsStart : Nat
  draw_total : Nat
  tick_total : Nat
  canvas_total : Nat
  paused : Bool
  running : Bool
  drawing : Bool
  wasPaused : Bool
  cellState : Cell
  tickDisabled : Bool
  resized : Bool
  /-- Pending `requestAnimationFrame(renderLoop)` callbacks. -/
  pendingLoops : Nat
  /-- Pending `requestAnimationFrame(drawUniverseCanvas)` callbacks. -/
  pendingDraws : Nat
  trace : List Call
  deriving DecidableEq

/-- Clock readings of one `renderLoop` invocation: the reading taken when the
metrics window opens and the measured durations of the step and of the draw. -/
structure FrameEnv where
  now : Nat
  tickMs : Nat
  drawMs : Nat
  deriving DecidableEq

/-- A pointer event: `e.pageX`, `e.pageY` (double-valued in the DOM, possibly
fractional) and the canvas offsets `canvas.offsetLeft`, `canvas.offsetTop`
(integers) read by the handler. -/
structure Pointer where
  pageX : ℚ
  pageY : ℚ
  offsetLeft : Int
  offsetTop : Int
  deriving DecidableEq

/-- What the script reads from its environment while it loads: the viewport
width and the two initial `performance.now()` readings. -/
structure Boot where
  clientWidth : Int
  start : Nat
  fpsStart : Nat
  deriving DecidableEq

/-! ## Functions of the script -/

/-- The function `drawUniverseCanvas` (lines 27-37): wrap the engine memory at
`canvasPtr` and put it on the canvas. -/
def drawUniverseCanvas (s : State) : State :=
  { s with
    trace := s.trace ++
      [Call.putImageData s.canvasPtr (WIDTH * HEIGHT * s.CELL_SIZE * s.CELL_SIZE * 4)
        (WIDTH * s.CELL_SIZE)] }

/-- The call `requestAnimationFrame(renderLoop)`. -/
def requestRenderLoop (s : State) : State :=
  { s with pendingLoops := s.pendingLoops + 1, trace := s.trace ++ [Call.rafLoop] }

/-- The call `requestAnimationFrame(drawUniverseCanvas)`. -/
def requestDraw (s : State) : State :=
  { s with pendingDraws := s.pendingDraws + 1, trace := s.trace ++ [Call.rafDraw] }

/-- The function `renderLoop` (lines 39-57), completing normally.  It is declared
`async` but awaits nothing, so its body runs to the end within the call. -/
def renderLoop (s : State) (env : FrameEnv) : State :=
  let s := if s.counter = 0 then { s with start := env.now } else s
  let s := { s with running := true }
  let s := { s with trace := s.trace ++ [Call.tick] }
  let s := { s with tick_total := s.tick_total + env.tickMs }
  let s := drawUniverseCanvas s
  let s := { s with draw_total := s.draw_total + env.drawMs }
  let s := { s with counter := s.counter + 1 }
  let s := { s with fpsCounter := s.fpsCounter + 1 }
  if s.paused then { s with running := false } else requestRenderLoop s

/-- The phase of `renderLoop` in which an exception is raised. -/
inductive Phase where
  /-- The call `universe.tick()` throws. -/
  | step
  /-- The call `drawUniverseCanvas()` throws. -/
  | draw
  deriving DecidableEq

/-- The function `renderLoop` abandoned by an exception: the statements before
the throwing call have run, the rest has not. -/
def renderLoopThrows (s : State) (env : FrameEnv) : Phase → State
  | Phase.step =>
    let s := if s.counter = 0 then { s with start := env.now } else s
    { s with running := true }
  | Phase.draw =>
    let s := if s.counter = 0 then { s with start := env.now } else s
    let s := { s with running := true }
    let s := { s with trace := s.trace ++ [Call.tick] }
    { s with tick_total := s.tick_total + env.tickMs }

/-- The throughput timer callback (lines 60-73). -/
def throughputFlush (s : State) : State :=
  if s.counter = 0 then s
  else { s with counter := 0, draw_total := 0, tick_total := 0, canvas_total := 0 }

/-- The display-rate timer callback (lines 76-81). -/
def fpsFlush (s : State) (now : Nat) : State :=
  { s with fpsStart := now, fpsCounter := 0 }

/-- Round a rational to the nearest integer, ties to the even one. -/
def roundHalfEven (t : ℚ) : ℤ :=
  if t - ⌊t⌋ < 1 / 2 then ⌊t⌋
  else if 1 / 2 < t - ⌊t⌋ then ⌊t⌋ + 1
  else if ⌊t⌋ % 2 = 0 then ⌊t⌋ else ⌊t⌋ + 1

/-- The exponent of the spacing between neighbouring doubles at a non-negative
magnitude `a`: 52 binary places below the leading bit, and never below the
spacing `2^-1074` of the subnormal range. -/
def ulpExp (a : ℚ) : ℤ :=
  max (Int.log 2 a - 52) (-1074)

/-- The double nearest to a non-negative rational: the nearest multiple of the
spacing at its magnitude, ties to the even multiple. -/
def flAbs (a : ℚ) : ℚ :=
  (roundHalfEven (a / 2 ^ ulpExp a) : ℚ) * 2 ^ ulpExp a

/-- The double nearest to a rational (IEEE 754 round to nearest, ties to even),
the result of every arithmetic operation on JavaScript numbers.  Values beyond
the largest finite double do not arise from the operands of the handlers. -/
def fl (q : ℚ) : ℚ :=
  if q < 0 then -flAbs (-q) else flAbs q

/-- Truncation toward zero, the integer part taken by `| 0`. -/
def truncQ (q : ℚ) : ℤ :=
  if q < 0 then -⌊-q⌋ else ⌊q⌋

/-- The expression `d / c | 0` for a double `d` and an integer-valued `c`: the
double quotient, truncated toward zero and wrapped to 32 bits; a division by
zero yields an infinity or NaN, which `| 0` turns into `0`. -/
def jsQuot (d : ℚ) (c : ℤ) : ℤ :=
  if c = 0 then 0 else toInt32 (truncQ (fl (d / fl c)))

/-- The horizontal offset of a pointer event from the canvas corner as the
handlers compute it, `e.pageX - canvas.offsetLeft`, a double. -/
def offsetX (p : Pointer) : ℚ :=
  fl (fl p.pageX - fl p.offsetLeft)

/-- The vertical offset of a pointer event from the canvas corner as the
handlers compute it, `e.pageY - canvas.offsetTop`, a double. -/
def offsetY (p : Pointer) : ℚ :=
  fl (fl p.pageY - fl p.offsetTop)

/-- The cell column addressed by a pointer event, `(e.pageX - canvas.offsetLeft) / CELL_SIZE | 0`. -/
def cellX (s : State) (p : Pointer) : Int :=
  jsQuot (offsetX p) s.CELL_SIZE

/-- The cell row addressed by a pointer event, `(e.pageY - canvas.offsetTop) / CELL_SIZE | 0`. -/
def cellY (s : State) (p : Pointer) : Int :=
  jsQuot (offsetY p) s.CELL_SIZE

/-- The value painted by a gesture whose first cell reads `got`:
`universe.get(cx, cy) === Cell.Alive ? Cell.Dead : Cell.Alive`. -/
def paintValue (got : Cell) : Cell :=
  if got = Cell.Alive then Cell.Dead else Cell.Alive

/-- The `pointerdown` handler (lines 90-100); `got` is the value returned by
`universe.get(cx, cy)`. -/
def onPointerDown (s : State) (p : Pointer) (got : Cell) : State :=
  let s := { s with wasPaused := s.paused }
  let s := { s with paused := true }
  let s := { s with drawing := true }
  let cx := cellX s p
  let cy := cellY s p
  let s := { s with trace := s.trace ++ [Call.get cx cy], cellState := paintValue got }
  { s with trace := s.trace ++ [Call.set cx cy s.cellState] }

/-- The `pointermove` handler (lines 101-109). -/
def onPointerMove (s : State) (p : Pointer) : State :=
  if s.drawing then
    let cx := cellX s p
    let cy := cellY s p
    let s := { s with trace := s.trace ++ [Call.set cx cy s.cellState] }
    requestDraw s
  else s

/-- The `pointerup` handler (lines 110-119). -/
def onPointerUp (s : State) : State :=
  if s.drawing then
    let s :=
      if !s.wasPaused then
        let s := { s with paused := false }
        if !s.running then requestRenderLoop s else s
      else s
    { s with drawing := false }
  else s

/-- The click handler of the single-step button (lines 124-126). -/
def onTickClick (s : State) (env : FrameEnv) : State :=
  if s.paused then renderLoop s env else s

/-- The function `pause` (lines 127-140), the click handler of the pause button. -/
def pause (s : State) : State :=
  if s.paused then
    let s := { s with paused := false }
    let s := if !s.running then requestRenderLoop s else s
    { s with tickDisabled := true }
  else
    let s := { s with paused := true }
    { s with tickDisabled := false }

/-- The function `resize(cell_size, lock)` (lines 145-155); the default value
`false` of `lock` is written out at the call site. -/
def resize (s : State) (cell_size : Int) (lock : Bool) : State :=
  let s := { s with resized := lock }
  let s := { s with CELL_SIZE := cell_size }
  let s := { s with canvasWidth := s.CELL_SIZE * WIDTH }
  let s := { s with canvasHeight := s.CELL_SIZE * HEIGHT }
  let s := { s with trace := s.trace ++ [Call.resize s.CELL_SIZE] }
  let s := { s with canvasPtr := s.trace.length, trace := s.trace ++ [Call.canvas] }
  if s.paused then drawUniverseCanvas s else s

/-- The `wheel` handler (lines 156-163). -/
def onWheel (s : State) (deltaY : Int) : State :=
  if deltaY < 0 ∧ s.CELL_SIZE < 12 then resize s (s.CELL_SIZE + 1) true
  else if deltaY > 0 ∧ s.CELL_SIZE > 1 then resize s (s.CELL_SIZE - 1) true
  else s

/-- The window `resize` handler (lines 164-168). -/
def onWindowResize (s : State) (clientWidth : Int) : State :=
  let size := divTrunc clientWidth WIDTH
  if !s.resized ∧ size > 0 ∧ size ≠ s.CELL_SIZE then resize s size false else s

/-- The state once the script has loaded (lines 4-26, 83-84, 88-89, 123, 144). -/
def init (b : Boot) : State :=
  let cellSize := divTrunc b.clientWidth WIDTH
  let s : State :=
    { CELL_SIZE := cellSize
      canvasWidth := cellSize * WIDTH
      canvasHeight := cellSize * HEIGHT
      canvasPtr := 1
      counter := 0
      fpsCounter := 0
      start := b.start
      fpsStart := b.fpsStart
      draw_total := 0
      tick_total := 0
      canvas_total := 0
      paused := false
      running := true
      drawing := false
      wasPaused := false
      cellState := Cell.Alive
      tickDisabled := true
      resized := false
      pendingLoops := 0
      pendingDraws := 0
      trace := [Call.new WIDTH HEIGHT cellSize, Call.canvas] }
  requestRenderLoop (drawUniverseCanvas s)

/-! ## Events and runs -/

/-- The callbacks the host can run. -/
inductive Event where
  /-- The host runs a pending `renderLoop` callback, which completes. -/
  | frame (env : FrameEnv)
  /-- The host runs a pending `renderLoop` callback, which throws. -/
  | frameThrows (env : FrameEnv) (ph : Phase)
  /-- The host runs a pending `drawUniverseCanvas` callback. -/
  | drawFrame
  | pointerdown (p : Pointer) (got : Cell)
  | pointermove (p : Pointer)
  | pointerup
  | tickClick (env : FrameEnv)
  | pauseClick
  | wheel (deltaY : Int)
  | windowResize (clientWidth : Int)
  | throughputTimer
  | fpsTimer (now : Nat)
  deriving DecidableEq

/-- One callback run to completion.  A scheduled callback runs only when one is
pending, and running it consumes it. -/
def step (s : State) : Event → State
  | Event.frame env =>
    if s.pendingLoops = 0 then s
    else renderLoop { s with pendingLoops := s.pendingLoops - 1 } env
  | Event.frameThrows env ph =>
    if s.pendingLoops = 0 then s
    else renderLoopThrows { s with pendingLoops := s.pendingLoops - 1 } env ph
  | Event.drawFrame =>
    if s.pendingDraws = 0 then s
    else drawUniverseCanvas { s with pendingDraws := s.pendingDraws - 1 }
  | Event.pointerdown p got => onPointerDown s p got
  | Event.pointermove p => onPointerMove s p
  | Event.pointerup => onPointerUp s
  | Event.tickClick env => onTickClick s env
  | Event.pauseClick => pause s
  | Event.wheel deltaY => onWheel s deltaY
  | Event.windowResize w => onWindowResize s w
  | Event.throughputTimer => throughputFlush s
  | Event.fpsTimer now => fpsFlush s now

/-- The state after a sequence of events. -/
def run (s : State) (es : List Event) : State :=
  es.foldl step s

/-- The generation counter: the number of `universe.tick()` calls made so far. -/
def generation (s : State) : Nat :=
  s.trace.count Call.tick

/-- The number of `requestAnimationFrame(renderLoop)` calls made so far. -/
def loopRequests (s : State) : Nat :=
  s.trace.count Call.rafLoop

/-- A boot environment used in examples: a 2048 pixel wide viewport. -/
def boot0 : Boot := { clientWidth := 2048, start := 0, fpsStart := 0 }

/-- Clock readings used in examples. -/
def env0 : FrameEnv := { now := 16, tickMs := 2, drawMs := 1 }

/-- Whether an event is a frame callback that throws. -/
def Event.throws : Event → Bool
  | Event.frameThrows _ _ => true
  | _ => false

/-- Along the run of `es` from `s`, every pause click arrives while no paint
gesture is in progress (`drawing == false`). -/
def pauseOutsideGesture : State → List Event → Bool
  | _, [] => true
  | s, e :: es =>
    (if e = Event.pauseClick then !s.drawing else true) && pauseOutsideGesture (step s e) es

/-- The cell writes (`universe.set` calls) of a trace, in order. -/
def writes : List Call → List (Int × Int × Cell)
  | [] => []
  | Call.set cx cy v :: t => (cx, cy, v) :: writes t
  | _ :: t => writes t

/-- The calls made by one completed `renderLoop` invocation before it decides
whether to re-arm: the engine step, then the redraw. -/
def frameCalls (s : State) : List Call :=
  [Call.tick,
   Call.putImageData s.canvasPtr (WIDTH * HEIGHT * s.CELL_SIZE * s.CELL_SIZE * 4)
     (WIDTH * s.CELL_SIZE)]

/-- The calls made by the handlers of one paint gesture that starts in `s`:
a press at `p0` reading `got`, then moves over `ps`. -/
def gestureCalls (s : State) (p0 : Pointer) (got : Cell) (ps : List Pointer) : List Call :=
  [Call.get (cellX s p0) (cellY s p0), Call.set (cellX s p0) (cellY s p0) (paintValue got)] ++
    ps.flatMap (fun p => [Call.set (cellX s p) (cellY s p) (paintValue got), Call.rafDraw])

/-- The events of one paint gesture: a press, moves, a release. -/
def gesture (p0 : Pointer) (got : Cell) (ps : List Pointer) : List Event :=
  Event.pointerdown p0 got :: (ps.map Event.pointermove ++ [Event.pointerup])

/-- The pending-frame invariant that does hold: a set `running` flag, and a
cleared `paused` flag, each come with at least one pending frame. -/
def Armed (s : State) : Prop :=
  (s.running = true → 1 ≤ s.pendingLoops) ∧ (s.paused = false → 1 ≤ s.pendingLoops)

/-- A paint gesture is in progress only while paused. -/
def GestureFreezes (s : State) : Prop :=
  s.drawing = true → s.paused = true

/-- A pointer event used in examples: pixel (40, 40) with zero canvas offset. -/
def press0 : Pointer := { pageX := 40, pageY := 40, offsetLeft := 0, offsetTop := 0 }

/-- A pointer event used in examples: pixel (44, 40) with zero canvas offset. -/
def move0 : Pointer := { pageX := 44, pageY := 40, offsetLeft := 0, offsetTop := 0 }

/-- Whether an event keeps the auto-fit size at most 12: a viewport-resize event
must report a width in `[0, 6656)`; every other event passes. -/
def Event.fitsMaxSize : Event → Bool
  | Event.windowResize w => decide (0 ≤ w ∧ w < 6656)
  | _ => true

/-- The cell pixel size lies in `[1, 12]`. -/
def SizeInRange (s : State) : Prop :=
  1 ≤ s.CELL_SIZE ∧ s.CELL_SIZE ≤ 12

/-- The single-step button is enabled only while paused; the second part is what
a gesture that began while playing needs to keep that true at its release. -/
def TickGate (s : State) : Prop :=
  (s.tickDisabled = false → s.paused = true) ∧
  (s.drawing = true → s.wasPaused = false → s.tickDisabled = true)

/-- The view pointer that is valid after the calls of a trace: the index of the
latest `universe.canvas()` call if no `universe.resize` (or `Universe.new`)
call came after it.  `cur` is the valid pointer before the calls and `i` the
index of the first call. -/
def viewAfter (cur : Option Nat) (i : Nat) : List Call → Option Nat
  | [] => cur
  | Call.canvas :: t => viewAfter (some i) (i + 1) t
  | Call.resize _ :: t => viewAfter none (i + 1) t
  | Call.new _ _ _ :: t => viewAfter none (i + 1) t
  | _ :: t => viewAfter cur (i + 1) t

/-- Every `putImageData` call of a trace uses the view pointer that is valid at
that point: the one fetched by the latest `universe.canvas()` call, with no
engine resize in between. -/
def drawsFresh (cur : Option Nat) (i : Nat) : List Call → Bool
  | [] => true
  | Call.canvas :: t => drawsFresh (some i) (i + 1) t
  | Call.resize _ :: t => drawsFresh none (i + 1) t
  | Call.new _ _ _ :: t => drawsFresh none (i + 1) t
  | Call.putImageData ptr _ _ :: t => decide (cur = some ptr) && drawsFresh cur (i + 1) t
  | _ :: t => drawsFresh cur (i + 1) t

/-- The canvas has the size of the grid in pixels, every redraw so far used a
fresh view pointer, and `canvasPtr` is the pointer that is valid now. -/
def SurfaceFits (s : State) : Prop :=
  s.canvasWidth = s.CELL_SIZE * 512 ∧ s.canvasHeight = s.CELL_SIZE * 512 ∧
  drawsFresh none 0 s.trace = true ∧ viewAfter none 0 s.trace = some s.canvasPtr

/-- A boot environment used in examples: a 7680 pixel wide viewport. -/
def bootWide : Boot := { clientWidth := 7680, start := 0, fpsStart := 0 }

/-- A boot environment used in examples: a 400 pixel wide viewport. -/
def bootNarrow : Boot := { clientWidth := 400, start := 0, fpsStart := 0 }

/-- A pointer event used in examples: four pixels left of the canvas, and
2048 pixels below its top. -/
def pressOutside : Pointer := { pageX := -4, pageY := 2048, offsetLeft := 0, offsetTop := 0 }

/-- Whether an event is a `pointerdown`. -/
def Event.isPress : Event → Bool
  | Event.pointerdown _ _ => true
  | _ => false

/-- Whether an event is a `pointerup`. -/
def Event.isRelease : Event → Bool
  | Event.pointerup => true
  | _ => false

/-- The cell writes one event other than a press makes in a state: a
`pointermove` that arrives while a gesture is active writes the gesture's value
to the cell it addresses; nothing else writes. -/
def stepWrites (s : State) : Event → List (Int × Int × Cell)
  | Event.pointermove p => if s.drawing then [(cellX s p, cellY s p, s.cellState)] else []
  | _ => []

/-- The cells visited by the `pointermove` events of a run that starts in `s`,
in order: each is the cell the handler computes from the pointer position with
the cell size current at that move. -/
def moveCells : State → List Event → List (Int × Int)
  | _, [] => []
  | s, Event.pointermove p :: es =>
    (cellX s p, cellY s p) :: moveCells (step s (Event.pointermove p)) es
  | s, e :: es => moveCells (step s e) es

/-! ## Basic facts about runs -/

theorem run_nil (s : State) : run s [] = s := rfl

theorem run_cons (s : State) (e : Event) (es : List Event) :
    run s (e :: es) = run (step s e) es := rfl

theorem run_append (s : State) (es fs : List Event) :
    run s (es ++ fs) = run (run s es) fs := by
  simp [run, List.foldl_append]

/-! ## The frame driver and the pending-frame count -/

/-- Closed form of a completed `renderLoop` invocation. -/
theorem renderLoop_eq (s : State) (env : FrameEnv) :
    renderLoop s env =
      { s with
        start := if s.counter = 0 then env.now else s.start
        running := !s.paused
        trace := s.trace ++ frameCalls s ++ (if s.paused then [] else [Call.rafLoop])
        tick_total := s.tick_total + env.tickMs
        draw_total := s.draw_total + env.drawMs
        counter := s.counter + 1
        fpsCounter := s.fpsCounter + 1
        pendingLoops := if s.paused then s.pendingLoops else s.pendingLoops + 1 } := by
  by_cases hc : s.counter = 0 <;> cases hp : s.paused <;>
    simp [renderLoop, drawUniverseCanvas, requestRenderLoop, frameCalls, hc, hp]

theorem armed_init (b : Boot) : Armed (init b) := by
  simp [Armed, init, requestRenderLoop, drawUniverseCanvas]

theorem armed_step (s : State) (e : Event) (he : e.throws = false) (h : Armed s) :
    Armed (step s e) := by
  obtain ⟨h1, h2⟩ := h
  cases e with
  | frame env =>
    by_cases h0 : s.pendingLoops = 0 <;> cases hp : s.paused <;>
      simp_all [step, renderLoop_eq, Armed]
  | frameThrows env ph => simp [Event.throws] at he
  | drawFrame =>
    by_cases h0 : s.pendingDraws = 0 <;> simp_all [step, drawUniverseCanvas, Armed]
  | pointerdown p got =>
    simp only [step, onPointerDown, Armed]
    exact ⟨h1, by simp⟩
  | pointermove p =>
    cases hd : s.drawing <;> simp_all [step, onPointerMove, requestDraw, Armed]
  | pointerup =>
    cases hd : s.drawing <;> cases hw : s.wasPaused <;> cases hr : s.running <;>
      simp_all [step, onPointerUp, requestRenderLoop, Armed]
  | tickClick env =>
    cases hp : s.paused <;> simp_all [step, onTickClick, renderLoop_eq, Armed]
  | pauseClick =>
    cases hp : s.paused <;> cases hr : s.running <;>
      simp_all [step, pause, requestRenderLoop, Armed]
  | wheel d =>
    simp only [step, onWheel, resize, drawUniverseCanvas, Armed]
    split_ifs <;> simp_all
  | windowResize w =>
    simp only [step, onWindowResize, resize, drawUniverseCanvas, Armed]
    split_ifs <;> simp_all
  | throughputTimer =>
    simp only [step, throughputFlush, Armed]
    split_ifs <;> simp_all
  | fpsTimer now => simp_all [step, fpsFlush, Armed]

theorem armed_run (s : State) (es : List Event) (hes : ∀ e ∈ es, e.throws = false)
    (h : Armed s) : Armed (run s es) := by
  induction es generalizing s with
  | nil => simpa [run_nil] using h
  | cons e es ih =>
    rw [run_cons]
    exact ih _ (fun x hx => hes x (List.mem_cons_of_mem _ hx))
      (armed_step s e (hes e (List.mem_cons_self _ _)) h)

/-- C2: in every state reached from startup by events none of which is a
throwing frame, `paused == false` comes with at least one pending `renderLoop`
invocation. -/
theorem playing_has_pending_frame (b : Boot) (es : List Event)
    (hes : ∀ e ∈ es, e.throws = false) (hp : (run (init b) es).paused = false) :
    1 ≤ (run (init b) es).pendingLoops :=
  (armed_run (init b) es hes (armed_init b)).2 hp

/-- Witness for C2: pausing, letting the pending frame run and resuming. -/
theorem playing_has_pending_frame_witness :
    (run (init boot0) [Event.pauseClick, Event.frame env0, Event.pauseClick]).paused = false ∧
    1 ≤ (run (init boot0) [Event.pauseClick, Event.frame env0, Event.pauseClick]).pendingLoops :=
  ⟨by decide,
   playing_has_pending_frame boot0 [Event.pauseClick, Event.frame env0, Event.pauseClick]
     (by decide) (by decide)⟩

/-- C1: the code at the failing input.  After a pause, the pending frame and a
resume, `running` is still false although a frame is pending; a second quick
pause and resume requests another one.  Two `renderLoop` invocations are then
pending, and after one of them has run `running == true` holds with two
pending. -/
theorem duplicate_frame_after_quick_toggle :
    (run (init boot0)
      [Event.pauseClick, Event.frame env0, Event.pauseClick, Event.pauseClick,
       Event.pauseClick]).pendingLoops = 2 ∧
    (run (init boot0)
      [Event.pauseClick, Event.frame env0, Event.pauseClick, Event.pauseClick,
       Event.pauseClick, Event.frame env0]).running = true ∧
    (run (init boot0)
      [Event.pauseClick, Event.frame env0, Event.pauseClick, Event.pauseClick,
       Event.pauseClick, Event.frame env0]).pendingLoops = 2 := by
  decide

/-! ## Frames, pause and single steps -/

theorem generation_init (b : Boot) : generation (init b) = 0 := by
  simp [generation, init, requestRenderLoop, drawUniverseCanvas]

/-- A frame that runs while playing re-arms itself: one generation more and the
same number of pending frames. -/
theorem frames_while_playing (s : State) (fs : List FrameEnv) (hp : s.paused = false)
    (h1 : 1 ≤ s.pendingLoops) :
    (run s (fs.map Event.frame)).paused = false ∧
    (run s (fs.map Event.frame)).pendingLoops = s.pendingLoops ∧
    generation (run s (fs.map Event.frame)) = generation s + fs.length := by
  induction fs generalizing s with
  | nil => simp [run_nil, hp]
  | cons f fs ih =>
    have h0 : s.pendingLoops ≠ 0 := by omega
    have hs : (step s (Event.frame f)).paused = false ∧
        (step s (Event.frame f)).pendingLoops = s.pendingLoops ∧
        generation (step s (Event.frame f)) = generation s + 1 := by
      simp [step, renderLoop_eq, h0, hp, generation, frameCalls]
      omega
    obtain ⟨a, b, c⟩ := hs
    obtain ⟨a2, b2, c2⟩ := ih (step s (Event.frame f)) a (by omega)
    simp only [List.map_cons, run_cons, List.length_cons]
    exact ⟨a2, by omega, by omega⟩

/-- Single steps while paused: each runs the frame driver once, which makes the
engine step and the redraw, counts the frame and schedules nothing. -/
theorem ticks_while_paused (s : State) (ts : List FrameEnv) (hp : s.paused = true) :
    (ts.foldl onTickClick s).paused = true ∧
    (ts = [] ∨ (ts.foldl onTickClick s).running = false) ∧
    (ts.foldl onTickClick s).pendingLoops = s.pendingLoops ∧
    (ts.foldl onTickClick s).trace = s.trace ++ (List.replicate ts.length (frameCalls s)).flatten ∧
    (ts.foldl onTickClick s).counter = s.counter + ts.length ∧
    (ts.foldl onTickClick s).fpsCounter = s.fpsCounter + ts.length := by
  induction ts generalizing s with
  | nil => simp [hp]
  | cons t ts ih =>
    have hs : onTickClick s t =
        { s with
          start := if s.counter = 0 then t.now else s.start
          running := false
          trace := s.trace ++ frameCalls s
          tick_total := s.tick_total + t.tickMs
          draw_total := s.draw_total + t.drawMs
          counter := s.counter + 1
          fpsCounter := s.fpsCounter + 1 } := by
      simp [onTickClick, renderLoop_eq, hp]
    obtain ⟨a, b, c, d, e, f⟩ := ih (onTickClick s t) (by rw [hs]; exact hp)
    have hfc : frameCalls (onTickClick s t) = frameCalls s := by rw [hs]; rfl
    simp only [List.foldl_cons, List.length_cons]
    refine ⟨a, Or.inr ?_, ?_, ?_, ?_, ?_⟩
    · rcases b with rfl | b
      · simp [hs]
      · exact b
    · rw [c, hs]
    · rw [d, hfc, hs]; simp [List.replicate_succ]
    · rw [e, hs]; simp only []; omega
    · rw [f, hs]; simp only []; omega

theorem run_tickClicks (s : State) (ts : List FrameEnv) :
    run s (ts.map Event.tickClick) = ts.foldl onTickClick s := by
  induction ts generalizing s with
  | nil => rfl
  | cons t ts ih => simp only [List.map_cons, run_cons, List.foldl_cons, step, ih]

theorem generation_frameCalls (s : State) (n : Nat) :
    List.count Call.tick (List.replicate n (frameCalls s)).flatten = n := by
  induction n with
  | zero => simp
  | succ n ih =>
    rw [List.replicate_succ, List.flatten_cons, List.count_append, ih]
    simp [frameCalls]
    omega

/-- With no frame pending, frame events do nothing. -/
theorem frames_none_pending (s : State) (gs : List FrameEnv) (h0 : s.pendingLoops = 0) :
    run s (gs.map Event.frame) = s := by
  induction gs with
  | nil => rfl
  | cons g gs ih => simp only [List.map_cons, run_cons, step, h0, if_true, ih]

/-- The frame that was pending when the pause was pressed still runs the engine
step once; it does not re-arm. -/
theorem pending_frame_after_pause (s : State) (env : FrameEnv) (hp : s.paused = true)
    (h1 : s.pendingLoops = 1) :
    generation (step s (Event.frame env)) = generation s + 1 ∧
    (step s (Event.frame env)).pendingLoops = 0 ∧
    (step s (Event.frame env)).paused = true ∧
    (step s (Event.frame env)).running = false := by
  simp [step, renderLoop_eq, h1, hp, generation, frameCalls]

/-- The state after `k` frames, a pause click and `n` single steps. -/
theorem paused_after_steps (b : Boot) (fs ts : List FrameEnv) :
    generation (run (init b) (fs.map Event.frame)) = fs.length ∧
    (run (run (init b) (fs.map Event.frame))
      (Event.pauseClick :: ts.map Event.tickClick)).paused = true ∧
    (run (run (init b) (fs.map Event.frame))
      (Event.pauseClick :: ts.map Event.tickClick)).pendingLoops = 1 ∧
    generation (run (run (init b) (fs.map Event.frame))
      (Event.pauseClick :: ts.map Event.tickClick)) = fs.length + ts.length := by
  have hi : (init b).paused = false ∧ (init b).pendingLoops = 1 := by
    simp [init, requestRenderLoop, drawUniverseCanvas]
  obtain ⟨a, b1, c⟩ := frames_while_playing (init b) fs hi.1 (by omega)
  rw [generation_init] at c
  rw [hi.2] at b1
  have hpz : (pause (run (init b) (fs.map Event.frame))).paused = true ∧
      (pause (run (init b) (fs.map Event.frame))).pendingLoops = 1 ∧
      (pause (run (init b) (fs.map Event.frame))).trace =
        (run (init b) (fs.map Event.frame)).trace := by
    simp [pause, a, b1]
  obtain ⟨p1, p2, p3⟩ := hpz
  obtain ⟨t1, _, t3, t4, _, _⟩ :=
    ticks_while_paused (pause (run (init b) (fs.map Event.frame))) ts p1
  refine ⟨by omega, ?_, ?_, ?_⟩
  · rw [run_cons, run_tickClicks]; exact t1
  · rw [run_cons, run_tickClicks]; simp only [step]; rw [t3, p2]
  · rw [run_cons, run_tickClicks]; simp only [step, generation]
    rw [t4, p3, List.count_append, generation_frameCalls]
    simp only [generation] at c
    omega

/-- C3 (amended): from startup, `k` executed frames give generation `k`; a pause
click and `n` single steps then give generation `k + n` with one frame still
pending.  That frame, scheduled before the pause, advances one more generation
when it runs, to `k + n + 1`, and does not re-arm: no frame is pending
afterwards, and further frame events leave the state unchanged. -/
theorem pause_then_steps_generation (b : Boot) (fs ts : List FrameEnv) (env : FrameEnv)
    (gs : List FrameEnv) :
    generation (run (init b) (fs.map Event.frame)) = fs.length ∧
    generation (run (run (init b) (fs.map Event.frame))
      (Event.pauseClick :: ts.map Event.tickClick)) = fs.length + ts.length ∧
    (run (run (init b) (fs.map Event.frame))
      (Event.pauseClick :: ts.map Event.tickClick)).pendingLoops = 1 ∧
    generation (step (run (run (init b) (fs.map Event.frame))
      (Event.pauseClick :: ts.map Event.tickClick)) (Event.frame env))
        = fs.length + ts.length + 1 ∧
    (step (run (run (init b) (fs.map Event.frame))
      (Event.pauseClick :: ts.map Event.tickClick)) (Event.frame env)).pendingLoops = 0 ∧
    (step (run (run (init b) (fs.map Event.frame))
      (Event.pauseClick :: ts.map Event.tickClick)) (Event.frame env)).paused = true ∧
    (step (run (run (init b) (fs.map Event.frame))
      (Event.pauseClick :: ts.map Event.tickClick)) (Event.frame env)).running = false ∧
    run (step (run (run (init b) (fs.map Event.frame))
      (Event.pauseClick :: ts.map Event.tickClick)) (Event.frame env)) (gs.map Event.frame)
        = step (run (run (init b) (fs.map Event.frame))
            (Event.pauseClick :: ts.map Event.tickClick)) (Event.frame env) := by
  obtain ⟨h1, h2, h3, h4⟩ := paused_after_steps b fs ts
  obtain ⟨g1, g2, g3, g4⟩ := pending_frame_after_pause _ env h2 h3
  exact ⟨h1, h4, h3, by omega, g2, g3, g4, frames_none_pending _ gs g2⟩

/-- C3 (counterexample): with `k = 100` frames, a pause click and `n = 3` single
steps the generation is 103, but the frame that was already scheduled when the
pause was clicked then runs and advances the generation to 104. -/
theorem pending_frame_advances_after_pause :
    generation (run (run (init boot0) ((List.replicate 100 env0).map Event.frame))
      (Event.pauseClick :: (List.replicate 3 env0).map Event.tickClick)) = 100 + 3 ∧
    generation (step (run (run (init boot0) ((List.replicate 100 env0).map Event.frame))
      (Event.pauseClick :: (List.replicate 3 env0).map Event.tickClick)) (Event.frame env0))
        ≠ 100 + 3 := by
  obtain ⟨_, h2, h3, h4⟩ :=
    paused_after_steps boot0 (List.replicate 100 env0) (List.replicate 3 env0)
  obtain ⟨g1, _⟩ := pending_frame_after_pause _ env0 h2 h3
  simp only [List.length_replicate] at h4
  exact ⟨h4, by omega⟩

/-- C4: in a state with `paused == true` and `running == false`, `N` clicks on
the single-step button run the frame driver `N` times: the trace grows by `N`
times the pair (engine step, redraw), the generation and both frame counters
grow by `N`, no frame is requested, and after every click `paused == true`,
`running == false` and the number of pending frames is unchanged. -/
theorem single_step_n_times (s : State) (envs : List FrameEnv) (hp : s.paused = true)
    (hr : s.running = false) :
    (run s (envs.map Event.tickClick)).trace
      = s.trace ++ (List.replicate envs.length (frameCalls s)).flatten ∧
    generation (run s (envs.map Event.tickClick)) = generation s + envs.length ∧
    (run s (envs.map Event.tickClick)).counter = s.counter + envs.length ∧
    (run s (envs.map Event.tickClick)).fpsCounter = s.fpsCounter + envs.length ∧
    loopRequests (run s (envs.map Event.tickClick)) = loopRequests s ∧
    ∀ k, (run s ((envs.take k).map Event.tickClick)).paused = true ∧
      (run s ((envs.take k).map Event.tickClick)).running = false ∧
      (run s ((envs.take k).map Event.tickClick)).pendingLoops = s.pendingLoops := by
  obtain ⟨_, _, _, t4, t5, t6⟩ := ticks_while_paused s envs hp
  simp only [run_tickClicks]
  refine ⟨t4, ?_, t5, t6, ?_, ?_⟩
  · rw [generation, t4, List.count_append, generation_frameCalls]; rfl
  · rw [loopRequests, t4, List.count_append]
    have : List.count Call.rafLoop (List.replicate envs.length (frameCalls s)).flatten = 0 := by
      rw [List.count_eq_zero]
      intro hm
      obtain ⟨l, hl, hx⟩ := List.mem_flatten.mp hm
      rw [List.eq_of_mem_replicate hl] at hx
      simp [frameCalls] at hx
    rw [this]; rfl
  · intro k
    obtain ⟨a, b, c, _⟩ := ticks_while_paused s (envs.take k) hp
    refine ⟨a, ?_, c⟩
    rcases b with b | b
    · rw [b]; exact hr
    · exact b

/-- Witness for C4: three single steps after a pause whose pending frame has
run. -/
theorem single_step_n_times_witness :
    (run (init boot0) [Event.pauseClick, Event.frame env0]).paused = true ∧
    (run (init boot0) [Event.pauseClick, Event.frame env0]).running = false ∧
    generation (run (run (init boot0) [Event.pauseClick, Event.frame env0])
      ([env0, env0, env0].map Event.tickClick))
        = generation (run (init boot0) [Event.pauseClick, Event.frame env0]) + 3 :=
  ⟨by decide, by decide,
   (single_step_n_times (run (init boot0) [Event.pauseClick, Event.frame env0])
     [env0, env0, env0] (by decide) (by decide)).2.1⟩

/-- C5: while `paused == true`, a `renderLoop` invocation requests no frame and
ends with `running == false`; and the only events whose handler requests a frame
are the pause click and the release of a gesture that began while playing
(`wasPaused == false`): frames, single steps, pointer presses and moves, wheel,
window resize and both metrics timers request none. -/
theorem paused_never_rearms (s : State) (hp : s.paused = true) :
    (∀ env, (renderLoop s env).running = false ∧
      loopRequests (renderLoop s env) = loopRequests s ∧
      (renderLoop s env).pendingLoops = s.pendingLoops) ∧
    (∀ e, loopRequests (step s e) ≠ loopRequests s →
      e = Event.pauseClick ∨ (e = Event.pointerup ∧ s.drawing = true ∧ s.wasPaused = false)) := by
  constructor
  · intro env
    simp [renderLoop_eq, hp, loopRequests, frameCalls]
  · intro e
    cases e with
    | frame env =>
      by_cases h0 : s.pendingLoops = 0 <;>
        simp [step, renderLoop_eq, hp, h0, loopRequests, frameCalls]
    | frameThrows env ph =>
      by_cases h0 : s.pendingLoops = 0 <;> by_cases hc : s.counter = 0 <;> cases ph <;>
        simp [step, renderLoopThrows, h0, hc, loopRequests]
    | drawFrame =>
      by_cases h0 : s.pendingDraws = 0 <;> simp [step, drawUniverseCanvas, h0, loopRequests]
    | pointerdown p got => simp [step, onPointerDown, loopRequests]
    | pointermove p =>
      cases hd : s.drawing <;> simp [step, onPointerMove, requestDraw, hd, loopRequests]
    | pointerup =>
      cases hd : s.drawing <;> cases hw : s.wasPaused <;>
        simp [step, onPointerUp, hd, hw, loopRequests]
    | tickClick env => simp [step, onTickClick, renderLoop_eq, hp, loopRequests, frameCalls]
    | pauseClick => simp
    | wheel d =>
      simp only [step, onWheel, resize, drawUniverseCanvas, loopRequests]
      split_ifs <;> simp_all
    | windowResize w =>
      simp only [step, onWindowResize, resize, drawUniverseCanvas, loopRequests]
      split_ifs <;> simp_all
    | throughputTimer =>
      simp only [step, throughputFlush, loopRequests]
      split_ifs <;> simp_all
    | fpsTimer now => simp [step, fpsFlush, loopRequests]

/-- Witness for C5: the paused state right after a pause click. -/
theorem paused_never_rearms_witness :
    (pause (init boot0)).paused = true ∧
    (renderLoop (pause (init boot0)) env0).running = false ∧
    loopRequests (renderLoop (pause (init boot0)) env0) = loopRequests (pause (init boot0)) :=
  ⟨by decide,
   ((paused_never_rearms (pause (init boot0)) (by decide)).1 env0).1,
   ((paused_never_rearms (pause (init boot0)) (by decide)).1 env0).2.1⟩

/-! ## Paint gestures -/

theorem gestureFreezes_step (s : State) (e : Event)
    (he : e = Event.pauseClick → s.drawing = false) (h : GestureFreezes s) :
    GestureFreezes (step s e) := by
  cases e with
  | frame env =>
    by_cases h0 : s.pendingLoops = 0 <;> simp_all [step, renderLoop_eq, GestureFreezes]
  | frameThrows env ph =>
    by_cases h0 : s.pendingLoops = 0 <;> by_cases hc : s.counter = 0 <;> cases ph <;>
      simp_all [step, renderLoopThrows, GestureFreezes]
  | drawFrame =>
    by_cases h0 : s.pendingDraws = 0 <;> simp_all [step, drawUniverseCanvas, GestureFreezes]
  | pointerdown p got => simp [step, onPointerDown, GestureFreezes]
  | pointermove p =>
    cases hd : s.drawing <;> simp_all [step, onPointerMove, requestDraw, GestureFreezes]
  | pointerup =>
    cases hd : s.drawing <;> cases hw : s.wasPaused <;> cases hr : s.running <;>
      simp_all [step, onPointerUp, requestRenderLoop, GestureFreezes]
  | tickClick env =>
    cases hp : s.paused <;> simp_all [step, onTickClick, renderLoop_eq, GestureFreezes]
  | pauseClick =>
    have hd : s.drawing = false := he rfl
    cases hp : s.paused <;> cases hr : s.running <;>
      simp_all [step, pause, requestRenderLoop, GestureFreezes]
  | wheel d =>
    simp only [step, onWheel, resize, drawUniverseCanvas, GestureFreezes]
    split_ifs <;> simp_all [GestureFreezes]
  | windowResize w =>
    simp only [step, onWindowResize, resize, drawUniverseCanvas, GestureFreezes]
    split_ifs <;> simp_all [GestureFreezes]
  | throughputTimer =>
    simp only [step, throughputFlush, GestureFreezes]
    split_ifs <;> simp_all [GestureFreezes]
  | fpsTimer now => simp_all [step, fpsFlush, GestureFreezes]

theorem gestureFreezes_run (s : State) (es : List Event)
    (hes : pauseOutsideGesture s es = true) (h : GestureFreezes s) :
    GestureFreezes (run s es) := by
  induction es generalizing s with
  | nil => simpa [run_nil] using h
  | cons e es ih =>
    simp only [pauseOutsideGesture, Bool.and_eq_true] at hes
    rw [run_cons]
    refine ih _ hes.2 (gestureFreezes_step s e ?_ h)
    intro hpc
    simpa [hpc] using hes.1

/-- C6 (counterexample): a pause click while a gesture is in progress clears
`paused` and leaves `drawing` set. -/
theorem pause_click_during_gesture :
    (run (init boot0) [Event.pointerdown press0 Cell.Dead, Event.pauseClick]).drawing = true ∧
    (run (init boot0) [Event.pointerdown press0 Cell.Dead, Event.pauseClick]).paused = false := by
  decide

/-- C6 (amended): in every state reached from startup by events among which no
pause click arrives while a gesture is in progress, `drawing == true` implies
`paused == true`. -/
theorem drawing_implies_paused (b : Boot) (es : List Event)
    (hes : pauseOutsideGesture (init b) es = true)
    (hd : (run (init b) es).drawing = true) : (run (init b) es).paused = true :=
  gestureFreezes_run (init b) es hes
    (by simp [GestureFreezes, init, requestRenderLoop, drawUniverseCanvas]) hd

/-- Witness for C6 (amended): a press, a frame, a move. -/
theorem drawing_implies_paused_witness :
    pauseOutsideGesture (init boot0)
      [Event.pointerdown press0 Cell.Dead, Event.frame env0, Event.pointermove move0] = true ∧
    (run (init boot0)
      [Event.pointerdown press0 Cell.Dead, Event.frame env0, Event.pointermove move0]).drawing
        = true ∧
    (run (init boot0)
      [Event.pointerdown press0 Cell.Dead, Event.frame env0, Event.pointermove move0]).paused
        = true :=
  ⟨by decide, by decide,
   drawing_implies_paused boot0
     [Event.pointerdown press0 Cell.Dead, Event.frame env0, Event.pointermove move0]
     (by decide) (by decide)⟩

/-- C7: the code at the failing input.  After a pause, the pending frame and a
resume, the controller is playing with exactly one frame pending and `running`
still false; a paint gesture from there ends with `paused == false` and
`drawing == false` but with two `renderLoop` invocations pending. -/
theorem gesture_after_resume_double_arms :
    (run (init boot0) [Event.pauseClick, Event.frame env0, Event.pauseClick]).paused = false ∧
    (run (init boot0) [Event.pauseClick, Event.frame env0, Event.pauseClick]).pendingLoops = 1 ∧
    (run (run (init boot0) [Event.pauseClick, Event.frame env0, Event.pauseClick])
      (gesture press0 Cell.Dead [move0])).paused = false ∧
    (run (run (init boot0) [Event.pauseClick, Event.frame env0, Event.pauseClick])
      (gesture press0 Cell.Dead [move0])).drawing = false ∧
    (run (run (init boot0) [Event.pauseClick, Event.frame env0, Event.pauseClick])
      (gesture press0 Cell.Dead [move0])).pendingLoops = 2 := by
  decide

/-- Moves while a gesture is in progress: each writes the gesture's value to the
addressed cell and requests a draw-only refresh. -/
theorem moves_while_drawing (t : State) (ps : List Pointer) (hd : t.drawing = true) :
    run t (ps.map Event.pointermove) =
      { t with
        pendingDraws := t.pendingDraws + ps.length
        trace := t.trace ++
          ps.flatMap (fun p => [Call.set (cellX t p) (cellY t p) t.cellState, Call.rafDraw]) } := by
  induction ps generalizing t with
  | nil => simp [run_nil]
  | cons p ps ih =>
    have hs : step t (Event.pointermove p) =
        { t with
          pendingDraws := t.pendingDraws + 1
          trace := t.trace ++ [Call.set (cellX t p) (cellY t p) t.cellState, Call.rafDraw] } := by
      simp [step, onPointerMove, requestDraw, hd]
    rw [List.map_cons, run_cons, ih _ (by rw [hs]; exact hd), hs]
    simp [cellX, cellY, Nat.add_assoc, Nat.add_comm 1]

/-- Closed form of a whole gesture run from any state. -/
theorem gesture_run (s : State) (p0 : Pointer) (got : Cell) (ps : List Pointer) :
    run s (gesture p0 got ps) =
      { s with
        wasPaused := s.paused
        drawing := false
        cellState := paintValue got
        pendingDraws := s.pendingDraws + ps.length
        pendingLoops := if s.paused || s.running then s.pendingLoops else s.pendingLoops + 1
        trace := s.trace ++ gestureCalls s p0 got ps ++
          (if s.paused || s.running then [] else [Call.rafLoop]) } := by
  have hdown : step s (Event.pointerdown p0 got) =
      { s with
        wasPaused := s.paused
        paused := true
        drawing := true
        cellState := paintValue got
        trace := s.trace ++ [Call.get (cellX s p0) (cellY s p0),
          Call.set (cellX s p0) (cellY s p0) (paintValue got)] } := by
    simp [step, onPointerDown, cellX, cellY]
  rw [gesture, run_cons, run_append, moves_while_drawing _ ps (by rw [hdown]), hdown]
  cases hp : s.paused <;> cases hr : s.running <;>
    simp [run, step, onPointerUp, requestRenderLoop, gestureCalls, cellX, cellY, hp, hr]

theorem writes_append (l m : List Call) : writes (l ++ m) = writes l ++ writes m := by
  induction l with
  | nil => rfl
  | cons c l ih => cases c <;> simp [writes, ih]

theorem writes_moves (s : State) (v : Cell) (ps : List Pointer) :
    writes (ps.flatMap (fun p => [Call.set (cellX s p) (cellY s p) v, Call.rafDraw]))
      = ps.map (fun p => (cellX s p, cellY s p, v)) := by
  induction ps with
  | nil => rfl
  | cons p ps ih =>
    rw [List.flatMap_cons, writes_append, ih]
    rfl

theorem writes_gestureCalls (s : State) (p0 : Pointer) (got : Cell) (ps : List Pointer) :
    writes (gestureCalls s p0 got ps)
      = (p0 :: ps).map (fun p => (cellX s p, cellY s p, paintValue got)) := by
  rw [gestureCalls, writes_append, writes_moves]
  rfl

theorem count_gestureCalls (s : State) (p0 : Pointer) (got : Cell) (ps : List Pointer) :
    List.count Call.tick (gestureCalls s p0 got ps) = 0 ∧
    List.count Call.rafLoop (gestureCalls s p0 got ps) = 0 := by
  constructor <;>
  · rw [List.count_eq_zero]
    intro hm
    simp [gestureCalls, List.mem_flatMap] at hm

/-- C8: a paint gesture that starts with `paused == true` ends with
`paused == true` and `drawing == false`; the calls its handlers make are the
read and write of the pressed cell and, per move, one cell write and one
draw-only refresh request, so no `renderLoop` invocation is requested, none
becomes pending and the generation does not advance. -/
theorem paused_gesture_stays_paused (s : State) (p0 : Pointer) (got : Cell)
    (ps : List Pointer) (hp : s.paused = true) :
    (run s (gesture p0 got ps)).paused = true ∧
    (run s (gesture p0 got ps)).drawing = false ∧
    (run s (gesture p0 got ps)).trace = s.trace ++ gestureCalls s p0 got ps ∧
    loopRequests (run s (gesture p0 got ps)) = loopRequests s ∧
    (run s (gesture p0 got ps)).pendingLoops = s.pendingLoops ∧
    generation (run s (gesture p0 got ps)) = generation s ∧
    (run s (gesture p0 got ps)).pendingDraws = s.pendingDraws + ps.length := by
  obtain ⟨c1, c2⟩ := count_gestureCalls s p0 got ps
  rw [gesture_run]
  simp [hp, loopRequests, generation, c1, c2]

/-- Witness for C8: a press and one move after a pause click. -/
theorem paused_gesture_stays_paused_witness :
    (pause (init boot0)).paused = true ∧
    (run (pause (init boot0)) (gesture press0 Cell.Dead [move0])).paused = true ∧
    (run (pause (init boot0)) (gesture press0 Cell.Dead [move0])).drawing = false ∧
    loopRequests (run (pause (init boot0)) (gesture press0 Cell.Dead [move0]))
      = loopRequests (pause (init boot0)) :=
  ⟨by decide,
   (paused_gesture_stays_paused (pause (init boot0)) press0 Cell.Dead [move0] (by decide)).1,
   (paused_gesture_stays_paused (pause (init boot0)) press0 Cell.Dead [move0] (by decide)).2.1,
   (paused_gesture_stays_paused (pause (init boot0)) press0 Cell.Dead [move0]
     (by decide)).2.2.2.1⟩

/-! ## Pointer position to cell -/

theorem toInt32_of_range (z : Int) (h0 : 0 ≤ z) (h1 : z < 2147483648) : toInt32 z = z := by
  unfold toInt32
  omega

theorem divTrunc_eq_floor (d c : Int) (hc : 1 ≤ c) (h0 : 0 ≤ d) (h1 : d < 2147483648 * c) :
    divTrunc d c = d / c := by
  unfold divTrunc
  rw [Int.tdiv_eq_ediv h0 (by omega)]
  exact toInt32_of_range _ (Int.ediv_nonneg h0 (by omega))
    (Int.ediv_lt_of_lt_mul (by omega) h1)

/-! ## Rounding to an integer -/

theorem roundHalfEven_bounds (t : ℚ) :
    ⌊t⌋ ≤ roundHalfEven t ∧ roundHalfEven t ≤ ⌊t⌋ + 1 := by
  unfold roundHalfEven
  split_ifs <;> omega

theorem le_roundHalfEven (A : ℤ) (t : ℚ) (h : (A : ℚ) ≤ t) : A ≤ roundHalfEven t :=
  le_trans (Int.le_floor.mpr h) (roundHalfEven_bounds t).1

theorem roundHalfEven_le (B : ℤ) (t : ℚ) (h : t ≤ B) : roundHalfEven t ≤ B := by
  rcases lt_or_eq_of_le h with h | h
  · have h1 : ⌊t⌋ < B := Int.floor_lt.mpr h
    have h2 := (roundHalfEven_bounds t).2
    omega
  · subst h
    simp [roundHalfEven]

theorem roundHalfEven_lt (B : ℤ) (t : ℚ) (h : t < B - 1 / 2) : roundHalfEven t < B := by
  have hf : (⌊t⌋ : ℚ) ≤ t := Int.floor_le t
  have h1 : ⌊t⌋ < B := by
    have : (⌊t⌋ : ℚ) < B := by linarith
    exact_mod_cast this
  unfold roundHalfEven
  split_ifs with h2 h3 h4
  · exact h1
  · have : ((⌊t⌋ + 1 : ℤ) : ℚ) < B := by push_cast; linarith
    exact_mod_cast this
  · exact h1
  · have : ((⌊t⌋ + 1 : ℤ) : ℚ) < B := by push_cast; linarith
    exact_mod_cast this

theorem roundHalfEven_intCast (z : ℤ) : roundHalfEven (z : ℚ) = z := by
  simp [roundHalfEven]

/-! ## Powers of two and the binary logarithm -/

theorem two_zpow_pos (k : ℤ) : (0 : ℚ) < 2 ^ k := zpow_pos (by norm_num) k

theorem two_zpow_log_le (q : ℚ) (hq : 0 < q) : (2 : ℚ) ^ Int.log 2 q ≤ q := by
  simpa using Int.zpow_log_le_self (b := 2) (r := q) (by norm_num) hq

theorem lt_two_zpow_log (q : ℚ) : q < (2 : ℚ) ^ (Int.log 2 q + 1) := by
  simpa using Int.lt_zpow_succ_log_self (b := 2) (by norm_num) q

theorem log_lt_of_lt (q : ℚ) (x : ℤ) (hq : 0 < q) (h : q < (2 : ℚ) ^ x) : Int.log 2 q < x := by
  have := (Int.lt_zpow_iff_log_lt (b := 2) (x := x) (r := q) (by norm_num) hq).mp
  exact this (by simpa using h)

theorem le_log_of_le (q : ℚ) (x : ℤ) (hq : 0 < q) (h : (2 : ℚ) ^ x ≤ q) : x ≤ Int.log 2 q := by
  have := (Int.zpow_le_iff_le_log (b := 2) (x := x) (r := q) (by norm_num) hq).mp
  exact this (by simpa using h)

theorem log_eq_of_bounds (q : ℚ) (x : ℤ) (h0 : (2 : ℚ) ^ x ≤ q) (h1 : q < (2 : ℚ) ^ (x + 1)) :
    Int.log 2 q = x := by
  have hq : 0 < q := lt_of_lt_of_le (two_zpow_pos x) h0
  have a := le_log_of_le q x hq h0
  have b := log_lt_of_lt q (x + 1) hq h1
  omega

/-- A power of two with a non-positive exponent is the inverse of an integer. -/
theorem two_zpow_neg_intCast (k : ℤ) (hk : k ≤ 0) :
    (((2 : ℤ) ^ (-k).toNat : ℤ) : ℚ) = (2 : ℚ) ^ (-k) := by
  have h : ((-k).toNat : ℤ) = -k := Int.toNat_of_nonneg (by omega)
  conv_rhs => rw [← h]
  rw [zpow_natCast]
  push_cast
  rfl

/-! ## The nearest double -/

theorem flAbs_nonneg (a : ℚ) (ha : 0 ≤ a) : 0 ≤ flAbs a := by
  unfold flAbs
  have h1 : (0 : ℚ) ≤ a / 2 ^ ulpExp a := div_nonneg ha (le_of_lt (two_zpow_pos _))
  have h2 : (0 : ℤ) ≤ roundHalfEven (a / 2 ^ ulpExp a) :=
    le_roundHalfEven 0 _ (by simpa using h1)
  have h3 : (0 : ℚ) ≤ (roundHalfEven (a / 2 ^ ulpExp a) : ℚ) := by exact_mod_cast h2
  exact mul_nonneg h3 (le_of_lt (two_zpow_pos _))

theorem fl_of_nonneg (q : ℚ) (h : 0 ≤ q) : fl q = flAbs q := by
  unfold fl
  rw [if_neg (not_lt.mpr h)]

theorem fl_of_neg (q : ℚ) (h : q < 0) : fl q = -flAbs (-q) := by
  unfold fl
  rw [if_pos h]

theorem flAbs_zero : flAbs 0 = 0 := by
  simp [flAbs, roundHalfEven]

theorem ulpExp_nonpos (x : ℚ) (hx0 : 0 < x) (hx1 : x < 2147483648) : ulpExp x ≤ -22 := by
  have h : Int.log 2 x < 31 := log_lt_of_lt x 31 hx0 (by norm_num; exact hx1)
  unfold ulpExp
  omega

/-- If the distance from `x` up to the next integer exceeds half a spacing, the
nearest double of `x` has the same integer part as `x`. -/
theorem floor_flAbs_of_gap (x : ℚ) (hx0 : 0 < x) (hx1 : x < 2147483648)
    (hgap : 1 / 2 < ((⌊x⌋ : ℚ) + 1 - x) * 2 ^ (-ulpExp x)) : ⌊flAbs x⌋ = ⌊x⌋ := by
  have hk : ulpExp x ≤ 0 := by
    have := ulpExp_nonpos x hx0 hx1
    omega
  have hP : (2 : ℚ) ^ (-ulpExp x).toNat = (2 : ℚ) ^ (-ulpExp x) := by
    have := two_zpow_neg_intCast (ulpExp x) hk
    push_cast at this
    exact this
  have hPpos : (0 : ℚ) < 2 ^ (-ulpExp x) := two_zpow_pos _
  have h2k : (2 : ℚ) ^ ulpExp x = ((2 : ℚ) ^ (-ulpExp x))⁻¹ := by
    rw [zpow_neg, inv_inv]
  have hfl : ((⌊x⌋ : ℤ) : ℚ) ≤ x := Int.floor_le x
  have hlow : ⌊x⌋ * (2 : ℤ) ^ (-ulpExp x).toNat ≤ roundHalfEven (x * 2 ^ (-ulpExp x)) := by
    apply le_roundHalfEven
    push_cast
    rw [hP]
    exact mul_le_mul_of_nonneg_right hfl (le_of_lt hPpos)
  have hupp : roundHalfEven (x * 2 ^ (-ulpExp x)) < (⌊x⌋ + 1) * (2 : ℤ) ^ (-ulpExp x).toNat := by
    apply roundHalfEven_lt
    push_cast
    rw [hP]
    linarith
  have hlowq : (⌊x⌋ : ℚ) * 2 ^ (-ulpExp x) ≤ (roundHalfEven (x * 2 ^ (-ulpExp x)) : ℚ) := by
    have : ((⌊x⌋ * (2 : ℤ) ^ (-ulpExp x).toNat : ℤ) : ℚ)
        ≤ (roundHalfEven (x * 2 ^ (-ulpExp x)) : ℚ) := by exact_mod_cast hlow
    push_cast at this
    rw [hP] at this
    exact this
  have huppq : (roundHalfEven (x * 2 ^ (-ulpExp x)) : ℚ) < ((⌊x⌋ : ℚ) + 1) * 2 ^ (-ulpExp x) := by
    have : (roundHalfEven (x * 2 ^ (-ulpExp x)) : ℚ)
        < (((⌊x⌋ + 1) * (2 : ℤ) ^ (-ulpExp x).toNat : ℤ) : ℚ) := by exact_mod_cast hupp
    push_cast at this
    rw [hP] at this
    exact this
  have hval : flAbs x = (roundHalfEven (x * 2 ^ (-ulpExp x)) : ℚ) / 2 ^ (-ulpExp x) := by
    unfold flAbs
    rw [h2k, div_inv_eq_mul, div_eq_mul_inv]
  rw [hval, Int.floor_eq_iff]
  constructor
  · rw [le_div_iff₀ hPpos]
    exact hlowq
  · rw [div_lt_iff₀ hPpos]
    exact huppq

theorem floor_flAbs_small (x : ℚ) (hx0 : 0 ≤ x) (hx1 : x < 1 / 2) : ⌊flAbs x⌋ = 0 := by
  rcases eq_or_lt_of_le hx0 with h | h
  · rw [← h, flAbs_zero]
    simp
  · have hf : ⌊x⌋ = 0 := by
      rw [Int.floor_eq_zero_iff]
      exact ⟨hx0, by linarith⟩
    have hk : ulpExp x ≤ 0 := by
      have := ulpExp_nonpos x h (by linarith)
      omega
    have hP1 : (1 : ℚ) ≤ 2 ^ (-ulpExp x) := one_le_zpow₀ (by norm_num) (by omega)
    rw [floor_flAbs_of_gap x h (by linarith), hf]
    rw [hf]
    push_cast
    nlinarith

/-- The quotient of a double by a positive integer, rounded to the nearest
double, has the integer part of the exact quotient. -/
theorem floor_flAbs_quot (d : ℚ) (c : ℤ) (hc : 1 ≤ c) (hd0 : 0 ≤ d) (hd1 : d < 2147483648)
    (hgrid : 1 / 2 ≤ d → ∃ m : ℤ, d = m * 2 ^ (Int.log 2 d - 52)) :
    ⌊flAbs (d / c)⌋ = ⌊d / c⌋ := by
  have hcq : (1 : ℚ) ≤ c := by exact_mod_cast hc
  have hcpos : (0 : ℚ) < c := by linarith
  have hx0 : 0 ≤ d / c := div_nonneg hd0 (le_of_lt hcpos)
  have hxd : d / c ≤ d := div_le_self hd0 hcq
  have hxc : d / c * c = d := div_mul_cancel₀ d (ne_of_gt hcpos)
  by_cases hs : d / c < 1 / 2
  · rw [floor_flAbs_small _ hx0 hs]
    symm
    rw [Int.floor_eq_zero_iff]
    exact ⟨hx0, by linarith⟩
  · have hx2 : 1 / 2 ≤ d / c := not_lt.mp hs
    have hxpos : 0 < d / c := by linarith
    apply floor_flAbs_of_gap _ hxpos (by linarith)
    -- the binade of the quotient
    have hLx : -1 ≤ Int.log 2 (d / c) :=
      le_log_of_le _ (-1) hxpos (by norm_num; linarith)
    have hux : ulpExp (d / c) = Int.log 2 (d / c) - 52 := by
      unfold ulpExp
      omega
    have ha : (2 : ℚ) ^ Int.log 2 (d / c) ≤ d / c := two_zpow_log_le _ hxpos
    have hapos : (0 : ℚ) < 2 ^ Int.log 2 (d / c) := two_zpow_pos _
    have hPa : (2 : ℚ) ^ (-ulpExp (d / c)) * 2 ^ Int.log 2 (d / c) = 2 ^ (52 : ℤ) := by
      rw [hux, ← zpow_add₀ (by norm_num : (2 : ℚ) ≠ 0)]
      congr 1
      omega
    -- the binade of the dividend
    have hd2 : 1 / 2 ≤ d := by linarith
    have hdpos : 0 < d := by linarith
    obtain ⟨m, hm⟩ := hgrid hd2
    have hLd : Int.log 2 d < 31 := log_lt_of_lt d 31 hdpos (by norm_num; exact hd1)
    have hb : d < (2 : ℚ) ^ (Int.log 2 d + 1) := lt_two_zpow_log d
    have hb2 : (2 : ℚ) ^ (Int.log 2 d + 1) = 2 ^ Int.log 2 d * 2 := by
      rw [zpow_add₀ (by norm_num : (2 : ℚ) ≠ 0), zpow_one]
    have hgpos : (0 : ℚ) < 2 ^ (Int.log 2 d - 52) := two_zpow_pos _
    have hgb : (2 : ℚ) ^ (Int.log 2 d - 52) * 2 ^ (52 : ℤ) = 2 ^ Int.log 2 d := by
      rw [← zpow_add₀ (by norm_num : (2 : ℚ) ≠ 0)]
      congr 1
      omega
    have hQ : (2 : ℚ) ^ (52 - Int.log 2 d).toNat * 2 ^ (Int.log 2 d - 52) = 1 := by
      have h1 : ((52 - Int.log 2 d).toNat : ℤ) = 52 - Int.log 2 d :=
        Int.toNat_of_nonneg (by omega)
      rw [← zpow_natCast, h1, ← zpow_add₀ (by norm_num : (2 : ℚ) ≠ 0)]
      have : 52 - Int.log 2 d + (Int.log 2 d - 52) = 0 := by omega
      rw [this, zpow_zero]
    -- the distance from the dividend up to the next multiple of the divisor
    have hn : d / c < (⌊d / c⌋ : ℚ) + 1 := Int.lt_floor_add_one _
    have hdiff : 0 < (c : ℚ) * ((⌊d / c⌋ : ℚ) + 1) - d := by
      have : 0 < ((⌊d / c⌋ : ℚ) + 1 - d / c) * c := mul_pos (by linarith) hcpos
      nlinarith
    have hj : ((c * (⌊d / c⌋ + 1) * (2 : ℤ) ^ (52 - Int.log 2 d).toNat - m : ℤ) : ℚ)
        * 2 ^ (Int.log 2 d - 52) = (c : ℚ) * ((⌊d / c⌋ : ℚ) + 1) - d := by
      push_cast
      rw [sub_mul, mul_assoc, hQ, mul_one, ← hm]
    have hjpos : 0 < c * (⌊d / c⌋ + 1) * (2 : ℤ) ^ (52 - Int.log 2 d).toNat - m := by
      have h1 : (0 : ℚ) < ((c * (⌊d / c⌋ + 1) * (2 : ℤ) ^ (52 - Int.log 2 d).toNat - m : ℤ) : ℚ)
          * 2 ^ (Int.log 2 d - 52) := by rw [hj]; exact hdiff
      have h2 : (0 : ℚ) <
          ((c * (⌊d / c⌋ + 1) * (2 : ℤ) ^ (52 - Int.log 2 d).toNat - m : ℤ) : ℚ) :=
        pos_of_mul_pos_left h1 (le_of_lt hgpos)
      exact_mod_cast h2
    have hgap0 : (2 : ℚ) ^ (Int.log 2 d - 52) ≤ (c : ℚ) * ((⌊d / c⌋ : ℚ) + 1) - d := by
      rw [← hj]
      have h1 : (1 : ℚ) ≤
          ((c * (⌊d / c⌋ + 1) * (2 : ℤ) ^ (52 - Int.log 2 d).toNat - m : ℤ) : ℚ) := by
        exact_mod_cast hjpos
      calc (2 : ℚ) ^ (Int.log 2 d - 52) = 1 * 2 ^ (Int.log 2 d - 52) := by ring
        _ ≤ _ := mul_le_mul_of_nonneg_right h1 (le_of_lt hgpos)
    -- put together
    have hac : (2 : ℚ) ^ Int.log 2 (d / c) * c ≤ d := by
      calc (2 : ℚ) ^ Int.log 2 (d / c) * c ≤ d / c * c :=
            mul_le_mul_of_nonneg_right ha (le_of_lt hcpos)
        _ = d := hxc
    have hacpos : (0 : ℚ) < 2 ^ Int.log 2 (d / c) * c := mul_pos hapos hcpos
    have hgapc : (2 : ℚ) ^ (Int.log 2 d - 52) ≤ ((⌊d / c⌋ : ℚ) + 1 - d / c) * c := by
      have : ((⌊d / c⌋ : ℚ) + 1 - d / c) * c = (c : ℚ) * ((⌊d / c⌋ : ℚ) + 1) - d := by
        rw [sub_mul, hxc]; ring
      rw [this]
      exact hgap0
    have key : 1 / 2 * ((2 : ℚ) ^ Int.log 2 (d / c) * c)
        < ((⌊d / c⌋ : ℚ) + 1 - d / c) * 2 ^ (-ulpExp (d / c))
          * ((2 : ℚ) ^ Int.log 2 (d / c) * c) := by
      have e1 : ((⌊d / c⌋ : ℚ) + 1 - d / c) * 2 ^ (-ulpExp (d / c))
          * ((2 : ℚ) ^ Int.log 2 (d / c) * c)
          = (((⌊d / c⌋ : ℚ) + 1 - d / c) * c)
            * ((2 : ℚ) ^ (-ulpExp (d / c)) * 2 ^ Int.log 2 (d / c)) := by ring
      rw [e1, hPa]
      have e2 : (2 : ℚ) ^ (Int.log 2 d - 52) * 2 ^ (52 : ℤ)
          ≤ ((⌊d / c⌋ : ℚ) + 1 - d / c) * c * 2 ^ (52 : ℤ) :=
        mul_le_mul_of_nonneg_right hgapc (le_of_lt (two_zpow_pos _))
      rw [hgb] at e2
      have e3 : d < 2 ^ Int.log 2 d * 2 := by rw [← hb2]; exact hb
      linarith
    exact lt_of_mul_lt_mul_right key (le_of_lt hacpos)

/-- In the normal range the scaled magnitude lies between `2^52` and `2^53`. -/
theorem flAbs_normal (y : ℚ) (hy : 0 < y) (hn : -1074 ≤ Int.log 2 y - 52) :
    flAbs y = (roundHalfEven (y / 2 ^ (Int.log 2 y - 52)) : ℚ) * 2 ^ (Int.log 2 y - 52) ∧
    4503599627370496 ≤ roundHalfEven (y / 2 ^ (Int.log 2 y - 52)) ∧
    roundHalfEven (y / 2 ^ (Int.log 2 y - 52)) ≤ 9007199254740992 := by
  have hu : ulpExp y = Int.log 2 y - 52 := by
    unfold ulpExp
    omega
  have hgpos : (0 : ℚ) < 2 ^ (Int.log 2 y - 52) := two_zpow_pos _
  have hlow : (2 : ℚ) ^ Int.log 2 y ≤ y := two_zpow_log_le y hy
  have hupp : y < (2 : ℚ) ^ (Int.log 2 y + 1) := lt_two_zpow_log y
  have e52 : (4503599627370496 : ℚ) * 2 ^ (Int.log 2 y - 52) = 2 ^ Int.log 2 y := by
    have : (4503599627370496 : ℚ) = 2 ^ (52 : ℤ) := by norm_num
    rw [this, ← zpow_add₀ (by norm_num : (2 : ℚ) ≠ 0)]
    congr 1
    omega
  have e53 : (9007199254740992 : ℚ) * 2 ^ (Int.log 2 y - 52) = 2 ^ (Int.log 2 y + 1) := by
    have : (9007199254740992 : ℚ) = 2 ^ (53 : ℤ) := by norm_num
    rw [this, ← zpow_add₀ (by norm_num : (2 : ℚ) ≠ 0)]
    congr 1
    omega
  refine ⟨by unfold flAbs; rw [hu], ?_, ?_⟩
  · apply le_roundHalfEven
    push_cast
    rw [le_div_iff₀ hgpos, e52]
    exact hlow
  · apply roundHalfEven_le
    push_cast
    rw [div_le_iff₀ hgpos, e53]
    exact le_of_lt hupp

/-- A double of magnitude at least one half is a multiple of the spacing of its
own binade. -/
theorem flAbs_grid (y : ℚ) (hy : 0 ≤ y) (h : 1 / 2 ≤ flAbs y) :
    ∃ m : ℤ, flAbs y = m * 2 ^ (Int.log 2 (flAbs y) - 52) := by
  rcases eq_or_lt_of_le hy with h0 | hpos
  · rw [← h0, flAbs_zero] at h
    norm_num at h
  by_cases hsub : Int.log 2 y - 52 < -1074
  · -- below the normal range the result is below one half
    exfalso
    have hu : ulpExp y = -1074 := by
      unfold ulpExp
      omega
    have hupp : y < (2 : ℚ) ^ (Int.log 2 y + 1) := lt_two_zpow_log y
    have h1 : (2 : ℚ) ^ (Int.log 2 y + 1) ≤ 2 ^ (-1022 : ℤ) :=
      zpow_le_zpow_right₀ (by norm_num) (by omega)
    have hgpos : (0 : ℚ) < 2 ^ (-1074 : ℤ) := two_zpow_pos _
    have e : (4503599627370496 : ℚ) * 2 ^ (-1074 : ℤ) = 2 ^ (-1022 : ℤ) := by
      have : (4503599627370496 : ℚ) = 2 ^ (52 : ℤ) := by norm_num
      rw [this, ← zpow_add₀ (by norm_num : (2 : ℚ) ≠ 0)]
      norm_num
    have hr : roundHalfEven (y / 2 ^ (-1074 : ℤ)) ≤ 4503599627370496 := by
      apply roundHalfEven_le
      push_cast
      rw [div_le_iff₀ hgpos, e]
      linarith
    have hrq : (roundHalfEven (y / 2 ^ (-1074 : ℤ)) : ℚ) ≤ 4503599627370496 := by
      exact_mod_cast hr
    have hval : flAbs y ≤ 2 ^ (-1022 : ℤ) := by
      unfold flAbs
      rw [hu, ← e]
      exact mul_le_mul_of_nonneg_right hrq (le_of_lt hgpos)
    have hsmall : (2 : ℚ) ^ (-1022 : ℤ) ≤ 2 ^ (-2 : ℤ) :=
      zpow_le_zpow_right₀ (by norm_num) (by norm_num)
    have h4 : (2 : ℚ) ^ (-2 : ℤ) = 1 / 4 := by norm_num
    have h5 : flAbs y ≤ 1 / 4 := le_trans hval (le_trans hsmall (le_of_eq h4))
    have h6 : (1 : ℚ) / 4 < 1 / 2 := by norm_num
    exact absurd h (not_le.mpr (lt_of_le_of_lt h5 h6))
  · obtain ⟨hval, hr0, hr1⟩ := flAbs_normal y hpos (by omega)
    have hgpos : (0 : ℚ) < 2 ^ (Int.log 2 y - 52) := two_zpow_pos _
    have e52 : (4503599627370496 : ℚ) * 2 ^ (Int.log 2 y - 52) = 2 ^ Int.log 2 y := by
      have : (4503599627370496 : ℚ) = 2 ^ (52 : ℤ) := by norm_num
      rw [this, ← zpow_add₀ (by norm_num : (2 : ℚ) ≠ 0)]
      congr 1
      omega
    have e53 : (9007199254740992 : ℚ) * 2 ^ (Int.log 2 y - 52) = 2 ^ (Int.log 2 y + 1) := by
      have : (9007199254740992 : ℚ) = 2 ^ (53 : ℤ) := by norm_num
      rw [this, ← zpow_add₀ (by norm_num : (2 : ℚ) ≠ 0)]
      congr 1
      omega
    rcases eq_or_lt_of_le hr1 with htop | hlt
    · -- rounded up to the next power of two
      have hv : flAbs y = (2 : ℚ) ^ (Int.log 2 y + 1) := by
        rw [hval, htop]
        push_cast
        exact e53
      have hlog : Int.log 2 (flAbs y) = Int.log 2 y + 1 := by
        rw [hv]
        have := Int.log_zpow (R := ℚ) (b := 2) (by norm_num) (Int.log 2 y + 1)
        simpa using this
      refine ⟨4503599627370496, ?_⟩
      rw [hlog, hv]
      have : (4503599627370496 : ℚ) = 2 ^ (52 : ℤ) := by norm_num
      push_cast
      rw [this, ← zpow_add₀ (by norm_num : (2 : ℚ) ≠ 0)]
      congr 1
      omega
    · have hr0q : (4503599627370496 : ℚ)
          ≤ (roundHalfEven (y / 2 ^ (Int.log 2 y - 52)) : ℚ) := by exact_mod_cast hr0
      have hr1q : (roundHalfEven (y / 2 ^ (Int.log 2 y - 52)) : ℚ)
          < (9007199254740992 : ℚ) := by exact_mod_cast hlt
      have hlog : Int.log 2 (flAbs y) = Int.log 2 y := by
        apply log_eq_of_bounds
        · rw [hval, ← e52]
          exact mul_le_mul_of_nonneg_right hr0q (le_of_lt hgpos)
        · rw [hval, ← e53]
          exact mul_lt_mul_of_pos_right hr1q hgpos
      exact ⟨_, by rw [hlog]; exact hval⟩

theorem fl_grid (y : ℚ) (h : 1 / 2 ≤ fl y) :
    ∃ m : ℤ, fl y = m * 2 ^ (Int.log 2 (fl y) - 52) := by
  by_cases hy : y < 0
  · exfalso
    rw [fl_of_neg y hy] at h
    have := flAbs_nonneg (-y) (by linarith)
    linarith
  · rw [fl_of_nonneg y (not_lt.mp hy)] at h ⊢
    exact flAbs_grid y (not_lt.mp hy) h

/-- Integers below `2^53` in magnitude are doubles. -/
theorem fl_intCast (z : ℤ) (hz : |z| < 9007199254740992) : fl (z : ℚ) = z := by
  have hpos : ∀ w : ℤ, 0 < w → w < 9007199254740992 → flAbs (w : ℚ) = w := by
    intro w hw0 hw1
    have hwq : (0 : ℚ) < w := by exact_mod_cast hw0
    have hL0 : 0 ≤ Int.log 2 (w : ℚ) :=
      le_log_of_le _ 0 hwq (by simp; exact_mod_cast hw0)
    have hL1 : Int.log 2 (w : ℚ) < 53 :=
      log_lt_of_lt _ 53 hwq (by norm_num; exact_mod_cast hw1)
    have hu : ulpExp (w : ℚ) = Int.log 2 (w : ℚ) - 52 := by
      unfold ulpExp
      omega
    have hk : ulpExp (w : ℚ) ≤ 0 := by omega
    have hP : (2 : ℚ) ^ (-ulpExp (w : ℚ)).toNat = (2 : ℚ) ^ (-ulpExp (w : ℚ)) := by
      have := two_zpow_neg_intCast (ulpExp (w : ℚ)) hk
      push_cast at this
      exact this
    have hdiv : (w : ℚ) / 2 ^ ulpExp (w : ℚ)
        = ((w * (2 : ℤ) ^ (-ulpExp (w : ℚ)).toNat : ℤ) : ℚ) := by
      push_cast
      rw [hP, zpow_neg, div_eq_mul_inv]
    unfold flAbs
    rw [hdiv, roundHalfEven_intCast]
    push_cast
    rw [hP, mul_assoc, ← zpow_add₀ (by norm_num : (2 : ℚ) ≠ 0)]
    simp
  rcases lt_trichotomy z 0 with hneg | hzero | hp
  · have h1 : ((z : ℤ) : ℚ) < 0 := by exact_mod_cast hneg
    rw [fl_of_neg _ h1]
    have h2 : -((z : ℤ) : ℚ) = ((-z : ℤ) : ℚ) := by push_cast; ring
    rw [h2, hpos (-z) (by omega) (by have := abs_lt.mp hz; omega)]
    push_cast
    ring
  · subst hzero
    rw [fl_of_nonneg _ (by simp)]
    simpa using flAbs_zero
  · have h1 : (0 : ℚ) ≤ ((z : ℤ) : ℚ) := by exact_mod_cast le_of_lt hp
    rw [fl_of_nonneg _ h1]
    exact hpos z hp (by have := abs_lt.mp hz; omega)

/-- The double nearest to an integer of at least `2^53` is at least `2^53`. -/
theorem flAbs_large (c : ℚ) (hc : 9007199254740992 ≤ c) : 9007199254740992 ≤ flAbs c := by
  have hcpos : 0 < c := by linarith
  have hL : 53 ≤ Int.log 2 c := le_log_of_le c 53 hcpos (by norm_num; exact hc)
  obtain ⟨hval, hr0, _⟩ := flAbs_normal c hcpos (by omega)
  have hr0q : (4503599627370496 : ℚ)
      ≤ (roundHalfEven (c / 2 ^ (Int.log 2 c - 52)) : ℚ) := by exact_mod_cast hr0
  have hg : (2 : ℚ) ^ (1 : ℤ) ≤ 2 ^ (Int.log 2 c - 52) :=
    zpow_le_zpow_right₀ (by norm_num) (by omega)
  rw [hval]
  have h2 : (2 : ℚ) ^ (1 : ℤ) = 2 := by norm_num
  nlinarith

theorem toInt32_of_int32 (z : Int) (h0 : -2147483648 ≤ z) (h1 : z < 2147483648) :
    toInt32 z = z := by
  unfold toInt32
  omega

theorem truncQ_intCast (z : ℤ) : truncQ (z : ℚ) = z := by
  unfold truncQ
  split_ifs
  · have : -((z : ℤ) : ℚ) = ((-z : ℤ) : ℚ) := by push_cast; ring
    rw [this, Int.floor_intCast]
    omega
  · exact Int.floor_intCast z

/-- The handler's quotient when the division comes out even. -/
theorem jsQuot_of_exact (d : ℚ) (c q : ℤ) (hc : c ≠ 0) (hcs : |c| < 9007199254740992)
    (hq0 : -2147483648 ≤ q) (hq1 : q < 2147483648) (h : d = q * c) : jsQuot d c = q := by
  have hcq : (c : ℚ) ≠ 0 := by exact_mod_cast hc
  unfold jsQuot
  rw [if_neg hc, fl_intCast c hcs, h, mul_div_assoc, div_self hcq, mul_one,
    fl_intCast q (by rw [abs_lt]; constructor <;> omega), truncQ_intCast,
    toInt32_of_int32 q hq0 hq1]

/-- The handler's quotient of a non-negative double below `2^31` by a cell size
of at least 1 is the floor of the exact quotient. -/
theorem jsQuot_eq_floor (d : ℚ) (c : ℤ) (hc : 1 ≤ c) (hd0 : 0 ≤ d) (hd1 : d < 2147483648)
    (hgrid : 1 / 2 ≤ d → ∃ m : ℤ, d = m * 2 ^ (Int.log 2 d - 52)) :
    jsQuot d c = ⌊d / c⌋ := by
  have hcq : (1 : ℚ) ≤ c := by exact_mod_cast hc
  have hcpos : (0 : ℚ) < c := by linarith
  have hx0 : 0 ≤ d / c := div_nonneg hd0 (le_of_lt hcpos)
  have hxd : d / c ≤ d := div_le_self hd0 hcq
  unfold jsQuot
  rw [if_neg (by omega)]
  by_cases hbig : c < 9007199254740992
  · rw [fl_intCast c (by rw [abs_lt]; constructor <;> omega), fl_of_nonneg _ hx0]
    have hnn := flAbs_nonneg (d / c) hx0
    unfold truncQ
    rw [if_neg (not_lt.mpr hnn), floor_flAbs_quot d c hc hd0 hd1 hgrid]
    apply toInt32_of_int32
    · have : 0 ≤ ⌊d / (c : ℚ)⌋ := Int.floor_nonneg.mpr hx0
      omega
    · rw [Int.floor_lt]
      push_cast
      linarith
  · have hc2 : (9007199254740992 : ℚ) ≤ c := by exact_mod_cast not_lt.mp hbig
    rw [fl_of_nonneg (c : ℚ) (le_of_lt hcpos)]
    have hC := flAbs_large (c : ℚ) hc2
    have hCpos : (0 : ℚ) < flAbs (c : ℚ) := by linarith
    have hq0 : 0 ≤ d / flAbs (c : ℚ) := div_nonneg hd0 (le_of_lt hCpos)
    have hq1 : d / flAbs (c : ℚ) < 1 / 2 := by
      rw [div_lt_iff₀ hCpos]
      linarith
    rw [fl_of_nonneg _ hq0]
    have hnn := flAbs_nonneg _ hq0
    unfold truncQ
    rw [if_neg (not_lt.mpr hnn), floor_flAbs_small _ hq0 hq1]
    have hz : ⌊d / (c : ℚ)⌋ = 0 := by
      rw [Int.floor_eq_zero_iff]
      refine ⟨hx0, ?_⟩
      rw [div_lt_iff₀ hcpos]
      linarith
    rw [hz]
    decide

/-- Subtracting a non-negative integer from a double that is at least as large
is exact. -/
theorem fl_sub_intCast (x : ℚ) (b : ℤ) (hx : fl x = x) (hb0 : 0 ≤ b) (hbx : (b : ℚ) ≤ x)
    (hx1 : x < 9007199254740992) : fl (x - b) = x - b := by
  rcases eq_or_lt_of_le hb0 with hb | hb
  · rw [← hb]
    simpa using hx
  have hb1 : (1 : ℚ) ≤ b := by exact_mod_cast (by omega : 1 ≤ b)
  have hxpos : 0 < x := by linarith
  have hy0 : 0 ≤ x - b := by linarith
  rcases eq_or_lt_of_le hy0 with hy | hy
  · rw [← hy, fl_of_nonneg 0 (le_refl 0), flAbs_zero]
  -- the grid of `x`
  obtain ⟨m, hm⟩ := fl_grid x (by rw [hx]; linarith)
  rw [hx] at hm
  have hLx0 : 0 ≤ Int.log 2 x := le_log_of_le x 0 hxpos (by simp; linarith)
  have hLx1 : Int.log 2 x < 53 := log_lt_of_lt x 53 hxpos (by norm_num; exact hx1)
  have hLy : Int.log 2 (x - b) ≤ Int.log 2 x := Int.log_mono_right hy (by linarith)
  have hk : ulpExp (x - b) ≤ Int.log 2 x - 52 := by
    unfold ulpExp
    omega
  have h2 : (2 : ℚ) ≠ 0 := by norm_num
  have e1 : (2 : ℚ) ^ (52 - Int.log 2 x).toNat * 2 ^ (Int.log 2 x - 52) = 1 := by
    have h1 : ((52 - Int.log 2 x).toNat : ℤ) = 52 - Int.log 2 x :=
      Int.toNat_of_nonneg (by omega)
    rw [← zpow_natCast, h1, ← zpow_add₀ h2]
    have : 52 - Int.log 2 x + (Int.log 2 x - 52) = 0 := by omega
    rw [this, zpow_zero]
  have e2 : (2 : ℚ) ^ (Int.log 2 x - 52 - ulpExp (x - b)).toNat * 2 ^ ulpExp (x - b)
      = 2 ^ (Int.log 2 x - 52) := by
    have h1 : ((Int.log 2 x - 52 - ulpExp (x - b)).toNat : ℤ)
        = Int.log 2 x - 52 - ulpExp (x - b) := Int.toNat_of_nonneg (by omega)
    rw [← zpow_natCast, h1, ← zpow_add₀ h2]
    congr 1
    omega
  have hval : x - b = (((m - b * (2 : ℤ) ^ (52 - Int.log 2 x).toNat)
      * (2 : ℤ) ^ (Int.log 2 x - 52 - ulpExp (x - b)).toNat : ℤ) : ℚ)
      * 2 ^ ulpExp (x - b) := by
    push_cast
    rw [mul_assoc, e2, sub_mul, mul_assoc, e1, mul_one, ← hm]
  have hdiv : (x - b) / 2 ^ ulpExp (x - b) = (((m - b * (2 : ℤ) ^ (52 - Int.log 2 x).toNat)
      * (2 : ℤ) ^ (Int.log 2 x - 52 - ulpExp (x - b)).toNat : ℤ) : ℚ) := by
    rw [div_eq_iff (ne_of_gt (two_zpow_pos _))]
    exact hval
  rw [fl_of_nonneg _ hy0]
  unfold flAbs
  rw [hdiv, roundHalfEven_intCast]
  exact hval.symm

/-! ## The handlers' cell -/

/-- The offset the handlers compute is the exact difference for integer page
coordinates. -/
theorem offsetX_of_int (p : Pointer) (a : ℤ) (hp : p.pageX = a)
    (ha : |a| < 9007199254740992) (hb : |p.offsetLeft| < 9007199254740992)
    (hab : |a - p.offsetLeft| < 9007199254740992) :
    offsetX p = ((a - p.offsetLeft : ℤ) : ℚ) := by
  unfold offsetX
  rw [hp, fl_intCast a ha, fl_intCast _ hb]
  have h : (a : ℚ) - (p.offsetLeft : ℚ) = ((a - p.offsetLeft : ℤ) : ℚ) := by push_cast; ring
  rw [h, fl_intCast _ hab]

theorem offsetY_of_int (p : Pointer) (a : ℤ) (hp : p.pageY = a)
    (ha : |a| < 9007199254740992) (hb : |p.offsetTop| < 9007199254740992)
    (hab : |a - p.offsetTop| < 9007199254740992) :
    offsetY p = ((a - p.offsetTop : ℤ) : ℚ) := by
  unfold offsetY
  rw [hp, fl_intCast a ha, fl_intCast _ hb]
  have h : (a : ℚ) - (p.offsetTop : ℚ) = ((a - p.offsetTop : ℤ) : ℚ) := by push_cast; ring
  rw [h, fl_intCast _ hab]

/-- The offset the handlers compute is the exact difference for a double page
coordinate at or beyond a non-negative canvas offset. -/
theorem offsetX_of_le (p : Pointer) (hd : fl p.pageX = p.pageX) (h0 : 0 ≤ p.offsetLeft)
    (h1 : (p.offsetLeft : ℚ) ≤ p.pageX) (h2 : p.pageX < 9007199254740992) :
    offsetX p = p.pageX - p.offsetLeft := by
  have hb : p.offsetLeft < 9007199254740992 := by
    have : (p.offsetLeft : ℚ) < 9007199254740992 := lt_of_le_of_lt h1 h2
    exact_mod_cast this
  unfold offsetX
  rw [hd, fl_intCast _ (by rw [abs_lt]; constructor <;> omega)]
  exact fl_sub_intCast _ _ hd h0 h1 h2

theorem offsetY_of_le (p : Pointer) (hd : fl p.pageY = p.pageY) (h0 : 0 ≤ p.offsetTop)
    (h1 : (p.offsetTop : ℚ) ≤ p.pageY) (h2 : p.pageY < 9007199254740992) :
    offsetY p = p.pageY - p.offsetTop := by
  have hb : p.offsetTop < 9007199254740992 := by
    have : (p.offsetTop : ℚ) < 9007199254740992 := lt_of_le_of_lt h1 h2
    exact_mod_cast this
  unfold offsetY
  rw [hd, fl_intCast _ (by rw [abs_lt]; constructor <;> omega)]
  exact fl_sub_intCast _ _ hd h0 h1 h2

theorem offsetX_grid (p : Pointer) (h : 1 / 2 ≤ offsetX p) :
    ∃ m : ℤ, offsetX p = m * 2 ^ (Int.log 2 (offsetX p) - 52) :=
  fl_grid _ h

theorem offsetY_grid (p : Pointer) (h : 1 / 2 ≤ offsetY p) :
    ∃ m : ℤ, offsetY p = m * 2 ^ (Int.log 2 (offsetY p) - 52) :=
  fl_grid _ h

theorem floor_quot_bounds (d : ℚ) (c : ℤ) (hc : 1 ≤ c) (hd0 : 0 ≤ d) (h : d < 512 * c) :
    0 ≤ ⌊d / (c : ℚ)⌋ ∧ ⌊d / (c : ℚ)⌋ < 512 := by
  have hcq : (0 : ℚ) < c := by exact_mod_cast (by omega : 0 < c)
  constructor
  · exact Int.floor_nonneg.mpr (div_nonneg hd0 (le_of_lt hcq))
  · rw [Int.floor_lt, div_lt_iff₀ hcq]
    push_cast
    exact h

/-- C10: let `dx`, `dy` be the offsets of the pointer from the canvas corner as
the handlers compute them, `e.pageX - canvas.offsetLeft` and
`e.pageY - canvas.offsetTop` in double arithmetic.  For every cell size
`CELL_SIZE >= 1` and every pointer position with `0 <= dx, dy < 2^31` (every
position a pointer can have), the `pointerdown` and `pointermove` handlers
address the cell `(floor(dx / CELL_SIZE), floor(dy / CELL_SIZE))`: the double
division and `| 0` lose nothing.  An offset below `512 * CELL_SIZE` gives a
coordinate in `[0, 512)`.  The computed offset is the exact difference whenever
that difference is a double: for every double page coordinate at or beyond a
non-negative canvas offset, and for integer page coordinates with any offset. -/
theorem pointer_cell_is_floor (s : State) (p : Pointer) (got : Cell)
    (hs : 1 ≤ s.CELL_SIZE)
    (hx0 : 0 ≤ offsetX p) (hy0 : 0 ≤ offsetY p)
    (hx1 : offsetX p < 2147483648) (hy1 : offsetY p < 2147483648) :
    (onPointerDown s p got).trace = s.trace ++
      [Call.get ⌊offsetX p / s.CELL_SIZE⌋ ⌊offsetY p / s.CELL_SIZE⌋,
       Call.set ⌊offsetX p / s.CELL_SIZE⌋ ⌊offsetY p / s.CELL_SIZE⌋ (paintValue got)] ∧
    (s.drawing = true → (onPointerMove s p).trace = s.trace ++
      [Call.set ⌊offsetX p / s.CELL_SIZE⌋ ⌊offsetY p / s.CELL_SIZE⌋ s.cellState,
       Call.rafDraw]) ∧
    (offsetX p < 512 * s.CELL_SIZE →
      0 ≤ ⌊offsetX p / s.CELL_SIZE⌋ ∧ ⌊offsetX p / s.CELL_SIZE⌋ < 512) ∧
    (offsetY p < 512 * s.CELL_SIZE →
      0 ≤ ⌊offsetY p / s.CELL_SIZE⌋ ∧ ⌊offsetY p / s.CELL_SIZE⌋ < 512) ∧
    (fl p.pageX = p.pageX → fl (p.offsetLeft : ℚ) = p.offsetLeft →
      fl (p.pageX - p.offsetLeft) = p.pageX - p.offsetLeft →
      offsetX p = p.pageX - p.offsetLeft) ∧
    (fl p.pageY = p.pageY → fl (p.offsetTop : ℚ) = p.offsetTop →
      fl (p.pageY - p.offsetTop) = p.pageY - p.offsetTop →
      offsetY p = p.pageY - p.offsetTop) ∧
    (fl p.pageX = p.pageX → 0 ≤ p.offsetLeft → (p.offsetLeft : ℚ) ≤ p.pageX →
      p.pageX < 9007199254740992 → offsetX p = p.pageX - p.offsetLeft) ∧
    (fl p.pageY = p.pageY → 0 ≤ p.offsetTop → (p.offsetTop : ℚ) ≤ p.pageY →
      p.pageY < 9007199254740992 → offsetY p = p.pageY - p.offsetTop) ∧
    (∀ a : ℤ, p.pageX = a → |a| < 9007199254740992 → |p.offsetLeft| < 9007199254740992 →
      |a - p.offsetLeft| < 9007199254740992 → offsetX p = ((a - p.offsetLeft : ℤ) : ℚ)) ∧
    (∀ a : ℤ, p.pageY = a → |a| < 9007199254740992 → |p.offsetTop| < 9007199254740992 →
      |a - p.offsetTop| < 9007199254740992 → offsetY p = ((a - p.offsetTop : ℤ) : ℚ)) := by
  have hx := jsQuot_eq_floor (offsetX p) s.CELL_SIZE hs hx0 hx1 (offsetX_grid p)
  have hy := jsQuot_eq_floor (offsetY p) s.CELL_SIZE hs hy0 hy1 (offsetY_grid p)
  refine ⟨?_, ?_, ?_, ?_, ?_, ?_, offsetX_of_le p, offsetY_of_le p, ?_, ?_⟩
  · simp [onPointerDown, cellX, cellY, hx, hy]
  · intro hd
    simp [onPointerMove, requestDraw, cellX, cellY, hx, hy, hd]
  · intro h
    exact floor_quot_bounds _ _ hs hx0 h
  · intro h
    exact floor_quot_bounds _ _ hs hy0 h
  · intro h1 h2 h3
    unfold offsetX
    rw [h1, h2, h3]
  · intro h1 h2 h3
    unfold offsetY
    rw [h1, h2, h3]
  · intro a hp ha hb hab
    exact offsetX_of_int p a hp ha hb hab
  · intro a hp ha hb hab
    exact offsetY_of_int p a hp ha hb hab

/-- Witness for C10: with cell size 4 and zero offset the press at pixel (40, 40)
addresses cell (10, 10), and the following move to pixel (44, 40) addresses
cell (11, 10). -/
theorem pointer_cell_is_floor_witness :
    (1 : Int) ≤ (init boot0).CELL_SIZE ∧
    (0 ≤ offsetX press0 ∧ offsetX press0 < 2147483648) ∧
    (0 ≤ offsetY press0 ∧ offsetY press0 < 2147483648) ∧
    (onPointerDown (init boot0) press0 Cell.Dead).trace = (init boot0).trace ++
      [Call.get 10 10, Call.set 10 10 Cell.Alive] ∧
    (onPointerMove (onPointerDown (init boot0) press0 Cell.Dead) move0).trace
      = (onPointerDown (init boot0) press0 Cell.Dead).trace ++
        [Call.set 11 10 Cell.Alive, Call.rafDraw] := by
  have hx : offsetX press0 = ((40 : ℤ) : ℚ) :=
    offsetX_of_int press0 40 (by simp [press0]) (by decide) (by decide) (by decide)
  have hy : offsetY press0 = ((40 : ℤ) : ℚ) :=
    offsetY_of_int press0 40 (by simp [press0]) (by decide) (by decide) (by decide)
  have hmx : offsetX move0 = ((44 : ℤ) : ℚ) :=
    offsetX_of_int move0 44 (by simp [move0]) (by decide) (by decide) (by decide)
  have hmy : offsetY move0 = ((40 : ℤ) : ℚ) :=
    offsetY_of_int move0 40 (by simp [move0]) (by decide) (by decide) (by decide)
  have hc : (init boot0).CELL_SIZE = 4 := by decide
  have hc2 : (onPointerDown (init boot0) press0 Cell.Dead).CELL_SIZE = 4 := by decide
  have hcs : (onPointerDown (init boot0) press0 Cell.Dead).cellState = Cell.Alive := by decide
  have f10 : ⌊(((40 : ℤ) : ℚ)) / ((4 : ℤ) : ℚ)⌋ = 10 := by
    have : (((40 : ℤ) : ℚ)) / ((4 : ℤ) : ℚ) = ((10 : ℤ) : ℚ) := by norm_num
    rw [this, Int.floor_intCast]
  have f11 : ⌊(((44 : ℤ) : ℚ)) / ((4 : ℤ) : ℚ)⌋ = 11 := by
    have : (((44 : ℤ) : ℚ)) / ((4 : ℤ) : ℚ) = ((11 : ℤ) : ℚ) := by norm_num
    rw [this, Int.floor_intCast]
  have h1 := pointer_cell_is_floor (init boot0) press0 Cell.Dead (by decide)
    (by rw [hx]; norm_num) (by rw [hy]; norm_num) (by rw [hx]; norm_num) (by rw [hy]; norm_num)
  have h2 := pointer_cell_is_floor (onPointerDown (init boot0) press0 Cell.Dead) move0
    Cell.Dead (by decide)
    (by rw [hmx]; norm_num) (by rw [hmy]; norm_num) (by rw [hmx]; norm_num)
    (by rw [hmy]; norm_num)
  refine ⟨by decide, ⟨by rw [hx]; norm_num, by rw [hx]; norm_num⟩,
    ⟨by rw [hy]; norm_num, by rw [hy]; norm_num⟩, ?_, ?_⟩
  · have h := h1.1
    rw [hx, hy, hc, f10] at h
    exact h
  · have h := h2.2.1 (by decide)
    rw [hmx, hmy, hc2, f11, f10, hcs] at h
    exact h

/-! ## Zoom and auto-fit -/

/-- The fitting size of a viewport width in `[0, 2^40)` is the floor quotient. -/
theorem divTrunc_width (w : Int) (h0 : 0 ≤ w) (h1 : w < 1099511627776) :
    divTrunc w WIDTH = w / 512 := by
  unfold divTrunc WIDTH
  rw [Int.tdiv_eq_ediv h0 (by omega)]
  exact toInt32_of_range _ (by omega) (by omega)

/-- Closed form of `resize`. -/
theorem resize_eq (s : State) (n : Int) (lock : Bool) :
    resize s n lock =
      { s with
        resized := lock
        CELL_SIZE := n
        canvasWidth := n * WIDTH
        canvasHeight := n * HEIGHT
        canvasPtr := s.trace.length + 1
        trace := s.trace ++ [Call.resize n, Call.canvas] ++
          (if s.paused then
            [Call.putImageData (s.trace.length + 1) (WIDTH * HEIGHT * n * n * 4) (WIDTH * n)]
           else []) } := by
  cases hp : s.paused <;> simp [resize, drawUniverseCanvas, hp]

theorem sizeInRange_step (s : State) (e : Event) (he : e.fitsMaxSize = true)
    (h : SizeInRange s) : SizeInRange (step s e) := by
  obtain ⟨h1, h2⟩ := h
  cases e with
  | frame env =>
    by_cases h0 : s.pendingLoops = 0 <;> simp_all [step, renderLoop_eq, SizeInRange]
  | frameThrows env ph =>
    by_cases h0 : s.pendingLoops = 0 <;> by_cases hc : s.counter = 0 <;> cases ph <;>
      simp_all [step, renderLoopThrows, SizeInRange]
  | drawFrame =>
    by_cases h0 : s.pendingDraws = 0 <;> simp_all [step, drawUniverseCanvas, SizeInRange]
  | pointerdown p got => simp_all [step, onPointerDown, SizeInRange]
  | pointermove p =>
    cases hd : s.drawing <;> simp_all [step, onPointerMove, requestDraw, SizeInRange]
  | pointerup =>
    cases hd : s.drawing <;> cases hw : s.wasPaused <;> cases hr : s.running <;>
      simp_all [step, onPointerUp, requestRenderLoop, SizeInRange]
  | tickClick env =>
    cases hp : s.paused <;> simp_all [step, onTickClick, renderLoop_eq, SizeInRange]
  | pauseClick =>
    cases hp : s.paused <;> cases hr : s.running <;>
      simp_all [step, pause, requestRenderLoop, SizeInRange]
  | wheel d =>
    by_cases ha : d < 0 ∧ s.CELL_SIZE < 12
    · have hstep : step s (Event.wheel d) = resize s (s.CELL_SIZE + 1) true := by
        simp only [step, onWheel, if_pos ha]
      rw [hstep, resize_eq]
      simp only [SizeInRange]
      omega
    · by_cases hb : d > 0 ∧ s.CELL_SIZE > 1
      · have hstep : step s (Event.wheel d) = resize s (s.CELL_SIZE - 1) true := by
          simp only [step, onWheel, if_neg ha, if_pos hb]
        rw [hstep, resize_eq]
        simp only [SizeInRange]
        omega
      · have hstep : step s (Event.wheel d) = s := by
          simp only [step, onWheel, if_neg ha, if_neg hb]
        rw [hstep]
        exact ⟨h1, h2⟩
  | windowResize w =>
    simp only [Event.fitsMaxSize, decide_eq_true_eq] at he
    have hw := divTrunc_width w he.1 (by omega)
    by_cases hc : (!s.resized) = true ∧ w / 512 > 0 ∧ w / 512 ≠ s.CELL_SIZE
    · have hstep : step s (Event.windowResize w) = resize s (w / 512) false := by
        simp only [step, onWindowResize, hw, if_pos hc]
      rw [hstep, resize_eq]
      simp only [SizeInRange]
      omega
    · have hstep : step s (Event.windowResize w) = s := by
        simp only [step, onWindowResize, hw, if_neg hc]
      rw [hstep]
      exact ⟨h1, h2⟩
  | throughputTimer =>
    simp only [step, throughputFlush, SizeInRange]
    split_ifs <;> simp_all
  | fpsTimer now => simp_all [step, fpsFlush, SizeInRange]

theorem sizeInRange_run (s : State) (es : List Event) (hes : ∀ e ∈ es, e.fitsMaxSize = true)
    (h : SizeInRange s) : SizeInRange (run s es) := by
  induction es generalizing s with
  | nil => simpa [run_nil] using h
  | cons e es ih =>
    rw [run_cons]
    exact ih _ (fun x hx => hes x (List.mem_cons_of_mem _ hx))
      (sizeInRange_step s e (hes e (List.mem_cons_self _ _)) h)

/-- C11 (counterexample): a 7680 pixel wide viewport gives `CELL_SIZE == 15` at
startup, and also through a viewport-resize event after a startup at 2048
pixels; a 400 pixel wide viewport gives `CELL_SIZE == 0` at startup. -/
theorem cell_size_escapes_bound :
    (init bootWide).CELL_SIZE = 15 ∧
    (run (init boot0) [Event.windowResize 7680]).CELL_SIZE = 15 ∧
    (init bootNarrow).CELL_SIZE = 0 := by
  decide

/-- C11 (amended): when the initial viewport width lies in `[512, 6656)` and
every viewport-resize event reports a width in `[0, 6656)`, every state reached
from startup has `1 <= CELL_SIZE <= 12`. -/
theorem cell_size_bounded (b : Boot) (es : List Event)
    (hb0 : 512 ≤ b.clientWidth) (hb1 : b.clientWidth < 6656)
    (hes : ∀ e ∈ es, e.fitsMaxSize = true) :
    1 ≤ (run (init b) es).CELL_SIZE ∧ (run (init b) es).CELL_SIZE ≤ 12 := by
  have hw := divTrunc_width b.clientWidth (by omega) (by omega)
  have hi : SizeInRange (init b) := by
    simp only [SizeInRange, init, requestRenderLoop, drawUniverseCanvas, hw]
    omega
  exact sizeInRange_run (init b) es hes hi

/-- Witness for C11 (amended): startup at 2048 pixels, zoom in twice, then a
viewport-resize to 1024 pixels. -/
theorem cell_size_bounded_witness :
    (512 : Int) ≤ boot0.clientWidth ∧ boot0.clientWidth < 6656 ∧
    1 ≤ (run (init boot0)
      [Event.wheel (-1), Event.wheel (-1), Event.windowResize 1024]).CELL_SIZE ∧
    (run (init boot0)
      [Event.wheel (-1), Event.wheel (-1), Event.windowResize 1024]).CELL_SIZE ≤ 12 :=
  ⟨by decide, by decide,
   cell_size_bounded boot0 [Event.wheel (-1), Event.wheel (-1), Event.windowResize 1024]
     (by decide) (by decide) (by decide)⟩

/-- C12 (counterexample): at `CELL_SIZE == 15`, reached by a startup in a 7680
pixel wide viewport, an increase request (`deltaY = -1`) is neither at
`CELL_SIZE == 12` nor at `CELL_SIZE == 1`, yet it changes nothing. -/
theorem wheel_rejects_above_max :
    (init bootWide).CELL_SIZE = 15 ∧
    onWheel (init bootWide) (-1) = init bootWide := by
  decide

/-- C12 (amended): the wheel handler accepts or rejects.  An increase request
(`deltaY < 0`) at `CELL_SIZE >= 12`, a decrease request (`deltaY > 0`) at
`CELL_SIZE <= 1` and a request with `deltaY = 0` leave the whole state, trace
included, unchanged.  Every other request is `resize(CELL_SIZE + 1, true)` or
`resize(CELL_SIZE - 1, true)`: it changes `CELL_SIZE` by exactly 1 in the
requested direction and sets `resized`.  From `1 <= CELL_SIZE <= 12` the result
is again within `[1, 12]`. -/
theorem wheel_accept_or_reject (s : State) (d : Int) :
    (d < 0 → 12 ≤ s.CELL_SIZE → onWheel s d = s) ∧
    (0 < d → s.CELL_SIZE ≤ 1 → onWheel s d = s) ∧
    (d = 0 → onWheel s d = s) ∧
    (d < 0 → s.CELL_SIZE < 12 →
      onWheel s d = resize s (s.CELL_SIZE + 1) true ∧
      (onWheel s d).CELL_SIZE = s.CELL_SIZE + 1 ∧ (onWheel s d).resized = true) ∧
    (0 < d → 1 < s.CELL_SIZE →
      onWheel s d = resize s (s.CELL_SIZE - 1) true ∧
      (onWheel s d).CELL_SIZE = s.CELL_SIZE - 1 ∧ (onWheel s d).resized = true) ∧
    (1 ≤ s.CELL_SIZE → s.CELL_SIZE ≤ 12 →
      1 ≤ (onWheel s d).CELL_SIZE ∧ (onWheel s d).CELL_SIZE ≤ 12) := by
  refine ⟨?_, ?_, ?_, ?_, ?_, ?_⟩
  · intro h1 h2
    have a : ¬ (d < 0 ∧ s.CELL_SIZE < 12) := by omega
    have b : ¬ (d > 0 ∧ s.CELL_SIZE > 1) := by omega
    simp [onWheel, a, b]
  · intro h1 h2
    have a : ¬ (d < 0 ∧ s.CELL_SIZE < 12) := by omega
    have b : ¬ (d > 0 ∧ s.CELL_SIZE > 1) := by omega
    simp [onWheel, a, b]
  · intro h1
    have a : ¬ (d < 0 ∧ s.CELL_SIZE < 12) := by omega
    have b : ¬ (d > 0 ∧ s.CELL_SIZE > 1) := by omega
    simp [onWheel, a, b]
  · intro h1 h2
    have a : d < 0 ∧ s.CELL_SIZE < 12 := ⟨h1, h2⟩
    simp [onWheel, a, resize_eq]
  · intro h1 h2
    have a : ¬ (d < 0 ∧ s.CELL_SIZE < 12) := by omega
    have b : d > 0 ∧ s.CELL_SIZE > 1 := ⟨h1, h2⟩
    simp [onWheel, a, b, resize_eq]
  · intro h1 h2
    exact sizeInRange_step s (Event.wheel d) rfl ⟨h1, h2⟩

/-- Witness for C12 (amended): at `CELL_SIZE == 4` an increase request gives 5
and sets the lock. -/
theorem wheel_accept_or_reject_witness :
    ((-1 : Int) < 0 ∧ (init boot0).CELL_SIZE < 12) ∧
    (onWheel (init boot0) (-1)).CELL_SIZE = (init boot0).CELL_SIZE + 1 ∧
    (onWheel (init boot0) (-1)).resized = true :=
  ⟨by decide,
   ((wheel_accept_or_reject (init boot0) (-1)).2.2.2.1 (by decide) (by decide)).2⟩

theorem locked_step (s : State) (e : Event) (h : s.resized = true) :
    (step s e).resized = true := by
  cases e with
  | frame env =>
    by_cases h0 : s.pendingLoops = 0 <;> simp_all [step, renderLoop_eq]
  | frameThrows env ph =>
    by_cases h0 : s.pendingLoops = 0 <;> by_cases hc : s.counter = 0 <;> cases ph <;>
      simp_all [step, renderLoopThrows]
  | drawFrame =>
    by_cases h0 : s.pendingDraws = 0 <;> simp_all [step, drawUniverseCanvas]
  | pointerdown p got => simp_all [step, onPointerDown]
  | pointermove p =>
    cases hd : s.drawing <;> simp_all [step, onPointerMove, requestDraw]
  | pointerup =>
    cases hd : s.drawing <;> cases hw : s.wasPaused <;> cases hr : s.running <;>
      simp_all [step, onPointerUp, requestRenderLoop]
  | tickClick env =>
    cases hp : s.paused <;> simp_all [step, onTickClick, renderLoop_eq]
  | pauseClick =>
    cases hp : s.paused <;> cases hr : s.running <;>
      simp_all [step, pause, requestRenderLoop]
  | wheel d =>
    by_cases ha : d < 0 ∧ s.CELL_SIZE < 12
    · simp only [step, onWheel, if_pos ha, resize_eq]
    · by_cases hb : d > 0 ∧ s.CELL_SIZE > 1
      · simp only [step, onWheel, if_neg ha, if_pos hb, resize_eq]
      · simp only [step, onWheel, if_neg ha, if_neg hb, h]
  | windowResize w =>
    simp [step, onWindowResize, h]
  | throughputTimer =>
    by_cases hc : s.counter = 0 <;> simp_all [step, throughputFlush]
  | fpsTimer now => simp_all [step, fpsFlush]

theorem locked_run (s : State) (es : List Event) (h : s.resized = true) :
    (run s es).resized = true := by
  induction es generalizing s with
  | nil => simpa [run_nil] using h
  | cons e es ih =>
    rw [run_cons]
    exact ih _ (locked_step s e h)

/-- C13: from a state with `resized == true`, every later state has
`resized == true`, whatever the events; a viewport-resize event then changes
nothing at all, so `CELL_SIZE` stays as it is whatever width the event reports.
This holds although `resize(cell_size)` with the default `lock = false` clears
`resized`: that call is made only while `resized == false`. -/
theorem lock_is_permanent (s : State) (es : List Event) (h : s.resized = true) :
    (run s es).resized = true ∧
    (∀ w, onWindowResize (run s es) w = run s es) ∧
    (∀ w, (onWindowResize (run s es) w).CELL_SIZE = (run s es).CELL_SIZE) ∧
    (∀ (t : State) (n : Int), (resize t n false).resized = false) := by
  have hr := locked_run s es h
  refine ⟨hr, ?_, ?_, ?_⟩
  · intro w
    simp [onWindowResize, hr]
  · intro w
    simp [onWindowResize, hr]
  · intro t n
    rw [resize_eq]

/-- Witness for C13: after an accepted zoom, a pause, a gesture and a
viewport-resize to 1024 pixels the lock is still set. -/
theorem lock_is_permanent_witness :
    (onWheel (init boot0) (-1)).resized = true ∧
    (run (onWheel (init boot0) (-1))
      [Event.pauseClick, Event.pointerdown press0 Cell.Dead, Event.pointerup,
       Event.windowResize 1024]).resized = true :=
  ⟨by decide,
   (lock_is_permanent (onWheel (init boot0) (-1))
     [Event.pauseClick, Event.pointerdown press0 Cell.Dead, Event.pointerup,
      Event.windowResize 1024] (by decide)).1⟩

/-- C14: the viewport width `document.body.clientWidth` is a 32-bit integer.  For
every such width `w >= 0` the viewport-resize handler computes the candidate
`floor(w / 512)` and applies it if and only if `resized` is false, the candidate
is positive and it differs from `CELL_SIZE`: the handler is then
`resize(candidate)`, `CELL_SIZE` becomes the candidate and `resized` stays
false.  In every other case the state, trace included, is unchanged. -/
theorem autofit_applies_iff (s : State) (w : Int) (h0 : 0 ≤ w) (h1 : w ≤ 2147483647) :
    (onWindowResize s w ≠ s ↔ (s.resized = false ∧ 0 < w / 512 ∧ w / 512 ≠ s.CELL_SIZE)) ∧
    (s.resized = false ∧ 0 < w / 512 ∧ w / 512 ≠ s.CELL_SIZE →
      onWindowResize s w = resize s (w / 512) false ∧
      (onWindowResize s w).CELL_SIZE = w / 512 ∧
      (onWindowResize s w).CELL_SIZE ≠ s.CELL_SIZE ∧
      (onWindowResize s w).resized = false) ∧
    (¬ (s.resized = false ∧ 0 < w / 512 ∧ w / 512 ≠ s.CELL_SIZE) →
      onWindowResize s w = s) := by
  have hw := divTrunc_width w h0 (by omega)
  have hyes : s.resized = false ∧ 0 < w / 512 ∧ w / 512 ≠ s.CELL_SIZE →
      onWindowResize s w = resize s (w / 512) false ∧
      (onWindowResize s w).CELL_SIZE = w / 512 ∧
      (onWindowResize s w).CELL_SIZE ≠ s.CELL_SIZE ∧
      (onWindowResize s w).resized = false := by
    intro hc
    have hc2 : (!s.resized) = true ∧ w / 512 > 0 ∧ w / 512 ≠ s.CELL_SIZE := by
      simpa using hc
    have hstep : onWindowResize s w = resize s (w / 512) false := by
      simp only [onWindowResize, hw, if_pos hc2]
    rw [hstep, resize_eq]
    exact ⟨rfl, rfl, hc.2.2, rfl⟩
  have hno : ¬ (s.resized = false ∧ 0 < w / 512 ∧ w / 512 ≠ s.CELL_SIZE) →
      onWindowResize s w = s := by
    intro hc
    have hc2 : ¬ ((!s.resized) = true ∧ w / 512 > 0 ∧ w / 512 ≠ s.CELL_SIZE) := by
      simpa using hc
    simp only [onWindowResize, hw, if_neg hc2]
  refine ⟨⟨?_, ?_⟩, hyes, hno⟩
  · intro hne
    by_contra hc
    exact hne (hno hc)
  · intro hc heq
    have h3 := (hyes hc).2.2.1
    rw [heq] at h3
    exact h3 rfl

/-- Witness for C14: at `CELL_SIZE == 4` with the lock clear, a viewport width of
1024 pixels gives `CELL_SIZE == 2`. -/
theorem autofit_applies_iff_witness :
    ((0 : Int) ≤ 1024 ∧ (1024 : Int) ≤ 2147483647) ∧
    ((init boot0).resized = false ∧ (0 : Int) < 1024 / 512 ∧
      (1024 : Int) / 512 ≠ (init boot0).CELL_SIZE) ∧
    (onWindowResize (init boot0) 1024).CELL_SIZE = 1024 / 512 :=
  ⟨by decide, by decide,
   ((autofit_applies_iff (init boot0) 1024 (by decide) (by decide)).2.1 (by decide)).2.1⟩

/-! ## Out-of-grid pointer positions -/

/-- C15 (counterexample): at cell size 4 a press four pixels left of the canvas
and 2048 pixels below its top computes the cell `(-1, 512)`, outside the grid,
and the handler reads and writes that cell; a move to the same position during a
gesture writes it as well. -/
theorem out_of_grid_press_reaches_engine :
    cellX (init boot0) pressOutside = -1 ∧ cellY (init boot0) pressOutside = 512 ∧
    (onPointerDown (init boot0) pressOutside Cell.Dead).trace
      = (init boot0).trace ++ [Call.get (-1) 512, Call.set (-1) 512 Cell.Alive] ∧
    (onPointerMove (onPointerDown (init boot0) press0 Cell.Dead) pressOutside).trace
      = (onPointerDown (init boot0) press0 Cell.Dead).trace ++
        [Call.set (-1) 512 Cell.Alive, Call.rafDraw] := by
  have hx : offsetX pressOutside = ((-4 : ℤ) : ℚ) := by
    have h := offsetX_of_int pressOutside (-4) (by simp [pressOutside]) (by decide)
      (by decide) (by decide)
    simpa [pressOutside] using h
  have hy : offsetY pressOutside = ((2048 : ℤ) : ℚ) := by
    have h := offsetY_of_int pressOutside 2048 (by simp [pressOutside]) (by decide)
      (by decide) (by decide)
    simpa [pressOutside] using h
  have qx : jsQuot (((-4 : ℤ) : ℚ)) 4 = -1 :=
    jsQuot_of_exact _ 4 (-1) (by decide) (by decide) (by decide) (by decide) (by norm_num)
  have qy : jsQuot (((2048 : ℤ) : ℚ)) 4 = 512 :=
    jsQuot_of_exact _ 4 512 (by decide) (by decide) (by decide) (by decide) (by norm_num)
  have hc : (init boot0).CELL_SIZE = 4 := by decide
  have hc2 : (onPointerDown (init boot0) press0 Cell.Dead).CELL_SIZE = 4 := by decide
  have hcs : (onPointerDown (init boot0) press0 Cell.Dead).cellState = Cell.Alive := by decide
  have cx : cellX (init boot0) pressOutside = -1 := by rw [cellX, hx, hc, qx]
  have cy : cellY (init boot0) pressOutside = 512 := by rw [cellY, hy, hc, qy]
  have cx2 : cellX (onPointerDown (init boot0) press0 Cell.Dead) pressOutside = -1 := by
    rw [cellX, hx, hc2, qx]
  have cy2 : cellY (onPointerDown (init boot0) press0 Cell.Dead) pressOutside = 512 := by
    rw [cellY, hy, hc2, qy]
  have hd : (onPointerDown (init boot0) press0 Cell.Dead).drawing = true := by decide
  have h1 : (onPointerDown (init boot0) pressOutside Cell.Dead).trace
      = (init boot0).trace ++
        [Call.get (cellX (init boot0) pressOutside) (cellY (init boot0) pressOutside),
         Call.set (cellX (init boot0) pressOutside) (cellY (init boot0) pressOutside)
           (paintValue Cell.Dead)] := by
    simp [onPointerDown, cellX, cellY]
  have h2 : (onPointerMove (onPointerDown (init boot0) press0 Cell.Dead) pressOutside).trace
      = (onPointerDown (init boot0) press0 Cell.Dead).trace ++
        [Call.set (cellX (onPointerDown (init boot0) press0 Cell.Dead) pressOutside)
           (cellY (onPointerDown (init boot0) press0 Cell.Dead) pressOutside)
           (onPointerDown (init boot0) press0 Cell.Dead).cellState, Call.rafDraw] := by
    rw [onPointerMove, if_pos hd]
    simp [requestDraw]
  rw [cx, cy] at h1
  rw [cx2, cy2, hcs] at h2
  exact ⟨cx, cy, h1, h2⟩

/-- C15 (amended): whatever cell coordinates the pointer position gives, inside
the grid or not, the `pointerdown` handler calls `universe.get` and
`universe.set` with them, and the `pointermove` handler calls `universe.set`
with them while a gesture is active (and does nothing otherwise).  The handlers
make no bounds check. -/
theorem pointer_handlers_pass_coordinates_on (s : State) (p : Pointer) (got : Cell) :
    (onPointerDown s p got).trace = s.trace ++
      [Call.get (cellX s p) (cellY s p), Call.set (cellX s p) (cellY s p) (paintValue got)] ∧
    (s.drawing = true → (onPointerMove s p).trace = s.trace ++
      [Call.set (cellX s p) (cellY s p) s.cellState, Call.rafDraw]) ∧
    (s.drawing = false → onPointerMove s p = s) := by
  refine ⟨?_, ?_, ?_⟩
  · simp [onPointerDown, cellX, cellY]
  · intro hd
    simp [onPointerMove, requestDraw, hd]
  · intro hd
    simp [onPointerMove, hd]

/-- Witness for C15 (amended): a move outside the grid during a gesture. -/
theorem pointer_handlers_pass_coordinates_on_witness :
    (onPointerDown (init boot0) press0 Cell.Dead).drawing = true ∧
    (onPointerMove (onPointerDown (init boot0) press0 Cell.Dead) pressOutside).trace
      = (onPointerDown (init boot0) press0 Cell.Dead).trace ++
        [Call.set (cellX (onPointerDown (init boot0) press0 Cell.Dead) pressOutside)
           (cellY (onPointerDown (init boot0) press0 Cell.Dead) pressOutside)
           (onPointerDown (init boot0) press0 Cell.Dead).cellState, Call.rafDraw] :=
  ⟨by decide,
   (pointer_handlers_pass_coordinates_on (onPointerDown (init boot0) press0 Cell.Dead)
     pressOutside Cell.Dead).2.1 (by decide)⟩

/-! ## A frame that throws -/

/-- Closed form of a `renderLoop` invocation that throws. -/
theorem renderLoopThrows_eq (s : State) (env : FrameEnv) (ph : Phase) :
    renderLoopThrows s env ph =
      { s with
        start := if s.counter = 0 then env.now else s.start
        running := true
        trace := s.trace ++ (if ph = Phase.draw then [Call.tick] else [])
        tick_total := if ph = Phase.draw then s.tick_total + env.tickMs else s.tick_total } := by
  by_cases hc : s.counter = 0 <;> cases ph <;> simp [renderLoopThrows, hc]

/-- C16 (counterexample): from startup the first frame throws in the engine
step; a pause click and a resume click then request no frame, none is pending,
and the controller is playing. -/
theorem resume_after_fault_does_not_rearm :
    loopRequests (run (step (init boot0) (Event.frameThrows env0 Phase.step))
      [Event.pauseClick, Event.pauseClick])
      = loopRequests (step (init boot0) (Event.frameThrows env0 Phase.step)) ∧
    (run (step (init boot0) (Event.frameThrows env0 Phase.step))
      [Event.pauseClick, Event.pauseClick]).pendingLoops = 0 ∧
    (run (step (init boot0) (Event.frameThrows env0 Phase.step))
      [Event.pauseClick, Event.pauseClick]).paused = false := by
  decide

/-- C16 (amended): a `renderLoop` invocation that throws in the engine step or
in the draw requests no frame and makes no further call (a throwing draw comes
after the one engine step, a throwing step after nothing); it leaves
`running == true` and `paused` as it was.  A pause click followed by another
pause click then requests no frame.  If the controller was playing, a pause
click, a completed single step and a pause click request exactly one frame and
end playing. -/
theorem fault_stops_loop (s : State) (env env2 : FrameEnv) (ph : Phase) :
    loopRequests (renderLoopThrows s env ph) = loopRequests s ∧
    (renderLoopThrows s env ph).pendingLoops = s.pendingLoops ∧
    (renderLoopThrows s env ph).trace = s.trace ++ (if ph = Phase.draw then [Call.tick] else []) ∧
    (renderLoopThrows s env ph).running = true ∧
    (renderLoopThrows s env ph).paused = s.paused ∧
    loopRequests (run (renderLoopThrows s env ph) [Event.pauseClick, Event.pauseClick])
      = loopRequests s ∧
    (s.paused = false →
      loopRequests (run (renderLoopThrows s env ph)
        [Event.pauseClick, Event.tickClick env2, Event.pauseClick]) = loopRequests s + 1 ∧
      (run (renderLoopThrows s env ph)
        [Event.pauseClick, Event.tickClick env2, Event.pauseClick]).pendingLoops
          = s.pendingLoops + 1 ∧
      (run (renderLoopThrows s env ph)
        [Event.pauseClick, Event.tickClick env2, Event.pauseClick]).paused = false) := by
  rw [renderLoopThrows_eq]
  refine ⟨?_, rfl, rfl, rfl, rfl, ?_, ?_⟩
  · cases ph <;> simp [loopRequests]
  · cases hp : s.paused <;> cases ph <;>
      simp [run, step, pause, requestRenderLoop, loopRequests, hp]
  · intro hp
    cases ph <;>
      simp [run, step, pause, onTickClick, renderLoop_eq, requestRenderLoop, loopRequests,
        frameCalls, hp]

/-- Witness for C16 (amended): the first frame after startup throws in the draw;
pause, single step, resume requests one frame. -/
theorem fault_stops_loop_witness :
    (init boot0).paused = false ∧
    loopRequests (run (renderLoopThrows (init boot0) env0 Phase.draw)
      [Event.pauseClick, Event.tickClick env0, Event.pauseClick])
        = loopRequests (init boot0) + 1 :=
  ⟨by decide,
   ((fault_stops_loop (init boot0) env0 env0 Phase.draw).2.2.2.2.2.2 (by decide)).1⟩

/-! ## The single-step button -/

theorem tickGate_step (s : State) (e : Event)
    (he : e = Event.pauseClick → s.drawing = false) (h : TickGate s) :
    TickGate (step s e) := by
  obtain ⟨h1, h2⟩ := h
  cases e with
  | frame env =>
    by_cases h0 : s.pendingLoops = 0 <;> simp_all [step, renderLoop_eq, TickGate]
  | frameThrows env ph =>
    by_cases h0 : s.pendingLoops = 0 <;> simp_all [step, renderLoopThrows_eq, TickGate]
  | drawFrame =>
    by_cases h0 : s.pendingDraws = 0 <;> simp_all [step, drawUniverseCanvas, TickGate]
  | pointerdown p got =>
    cases hp : s.paused <;> cases ht : s.tickDisabled <;>
      simp_all [step, onPointerDown, TickGate]
  | pointermove p =>
    cases hd : s.drawing <;> simp_all [step, onPointerMove, requestDraw, TickGate]
  | pointerup =>
    cases hd : s.drawing <;> cases hw : s.wasPaused <;> cases hr : s.running <;>
      simp_all [step, onPointerUp, requestRenderLoop, TickGate]
  | tickClick env =>
    cases hp : s.paused <;> simp_all [step, onTickClick, renderLoop_eq, TickGate]
  | pauseClick =>
    have hd : s.drawing = false := he rfl
    cases hp : s.paused <;> cases hr : s.running <;>
      simp_all [step, pause, requestRenderLoop, TickGate]
  | wheel d =>
    by_cases ha : d < 0 ∧ s.CELL_SIZE < 12
    · simp only [step, onWheel, if_pos ha, resize_eq, TickGate]
      exact ⟨h1, h2⟩
    · by_cases hb : d > 0 ∧ s.CELL_SIZE > 1
      · simp only [step, onWheel, if_neg ha, if_pos hb, resize_eq, TickGate]
        exact ⟨h1, h2⟩
      · simp only [step, onWheel, if_neg ha, if_neg hb]
        exact ⟨h1, h2⟩
  | windowResize w =>
    by_cases hc : (!s.resized) = true ∧ divTrunc w WIDTH > 0 ∧ divTrunc w WIDTH ≠ s.CELL_SIZE
    · simp only [step, onWindowResize, if_pos hc, resize_eq, TickGate]
      exact ⟨h1, h2⟩
    · simp only [step, onWindowResize, if_neg hc]
      exact ⟨h1, h2⟩
  | throughputTimer =>
    by_cases hc : s.counter = 0 <;> simp_all [step, throughputFlush, TickGate]
  | fpsTimer now => simp_all [step, fpsFlush, TickGate]

theorem tickGate_run (s : State) (es : List Event)
    (hes : pauseOutsideGesture s es = true) (h : TickGate s) : TickGate (run s es) := by
  induction es generalizing s with
  | nil => simpa [run_nil] using h
  | cons e es ih =>
    simp only [pauseOutsideGesture, Bool.and_eq_true] at hes
    rw [run_cons]
    refine ih _ hes.2 (tickGate_step s e ?_ h)
    intro hpc
    simpa [hpc] using hes.1

/-- C17 (counterexample): a press while playing, two pause clicks during the
gesture and the release end with the single-step button enabled while
`paused == false`. -/
theorem tick_enabled_while_playing :
    (run (init boot0)
      [Event.pointerdown press0 Cell.Dead, Event.pauseClick, Event.pauseClick,
       Event.pointerup]).tickDisabled = false ∧
    (run (init boot0)
      [Event.pointerdown press0 Cell.Dead, Event.pauseClick, Event.pauseClick,
       Event.pointerup]).paused = false := by
  decide

/-- C17 (amended): in every state reached from startup by events among which no
pause click arrives while a gesture is in progress, the single-step button is
enabled only if `paused == true`; and the pause click enables it when it pauses
and disables it when it resumes. -/
theorem tick_enabled_only_if_paused (b : Boot) (es : List Event)
    (hes : pauseOutsideGesture (init b) es = true) :
    ((run (init b) es).tickDisabled = false → (run (init b) es).paused = true) ∧
    (∀ t : State, t.paused = false → (pause t).paused = true ∧ (pause t).tickDisabled = false) ∧
    (∀ t : State, t.paused = true → (pause t).paused = false ∧ (pause t).tickDisabled = true) := by
  have hi : TickGate (init b) := by
    simp [TickGate, init, requestRenderLoop, drawUniverseCanvas]
  refine ⟨(tickGate_run (init b) es hes hi).1, ?_, ?_⟩
  · intro t ht
    simp [pause, ht]
  · intro t ht
    cases hr : t.running <;> simp [pause, requestRenderLoop, ht, hr]

/-- Witness for C17 (amended): a gesture while playing, then a pause click. -/
theorem tick_enabled_only_if_paused_witness :
    pauseOutsideGesture (init boot0)
      [Event.pointerdown press0 Cell.Dead, Event.pointerup, Event.pauseClick] = true ∧
    (run (init boot0)
      [Event.pointerdown press0 Cell.Dead, Event.pointerup, Event.pauseClick]).tickDisabled
        = false ∧
    (run (init boot0)
      [Event.pointerdown press0 Cell.Dead, Event.pointerup, Event.pauseClick]).paused = true :=
  ⟨by decide, by decide,
   (tick_enabled_only_if_paused boot0
     [Event.pointerdown press0 Cell.Dead, Event.pointerup, Event.pauseClick]
     (by decide)).1 (by decide)⟩

/-! ## Canvas size and the framebuffer view -/

theorem viewAfter_append (cur : Option Nat) (i : Nat) (l m : List Call) :
    viewAfter cur i (l ++ m) = viewAfter (viewAfter cur i l) (i + l.length) m := by
  induction l generalizing cur i with
  | nil => rfl
  | cons c l ih =>
    have hidx : i + 1 + l.length = i + (l.length + 1) := by omega
    cases c <;>
      simp only [List.cons_append, viewAfter, List.append_eq, List.length_cons, ih, hidx]

theorem drawsFresh_append (cur : Option Nat) (i : Nat) (l m : List Call) :
    drawsFresh cur i (l ++ m)
      = (drawsFresh cur i l && drawsFresh (viewAfter cur i l) (i + l.length) m) := by
  induction l generalizing cur i with
  | nil => simp [drawsFresh, viewAfter]
  | cons c l ih =>
    have hidx : i + 1 + l.length = i + (l.length + 1) := by omega
    cases c <;>
      simp only [List.cons_append, drawsFresh, viewAfter, List.append_eq, List.length_cons, ih,
        hidx, Bool.and_assoc]

/-- Appending calls that neither resize the engine nor fetch the view, and whose
redraws use `canvasPtr`, keeps `SurfaceFits`. -/
theorem surfaceFits_append (s t : State) (app : List Call) (h : SurfaceFits s)
    (hc : t.CELL_SIZE = s.CELL_SIZE) (hw : t.canvasWidth = s.canvasWidth)
    (hh : t.canvasHeight = s.canvasHeight) (hp : t.canvasPtr = s.canvasPtr)
    (ht : t.trace = s.trace ++ app)
    (hd : drawsFresh (some s.canvasPtr) (0 + s.trace.length) app = true)
    (hv : viewAfter (some s.canvasPtr) (0 + s.trace.length) app = some s.canvasPtr) :
    SurfaceFits t := by
  obtain ⟨h1, h2, h3, h4⟩ := h
  refine ⟨by rw [hw, hc]; exact h1, by rw [hh, hc]; exact h2, ?_, ?_⟩
  · rw [ht, drawsFresh_append, h3, h4, hd]
    rfl
  · rw [ht, viewAfter_append, h4, hv, hp]

theorem surfaceFits_resize (s : State) (n : Int) (lock : Bool) (h : SurfaceFits s) :
    SurfaceFits (resize s n lock) := by
  obtain ⟨h1, h2, h3, h4⟩ := h
  rw [resize_eq]
  refine ⟨by simp [WIDTH], by simp [HEIGHT], ?_, ?_⟩
  · simp only [List.append_assoc]
    rw [drawsFresh_append, h3]
    cases hp : s.paused <;> simp [drawsFresh, viewAfter]
  · simp only [List.append_assoc]
    rw [viewAfter_append]
    cases hp : s.paused <;> simp [viewAfter]

theorem surfaceFits_init (b : Boot) : SurfaceFits (init b) := by
  simp [SurfaceFits, init, requestRenderLoop, drawUniverseCanvas, WIDTH, HEIGHT, drawsFresh,
    viewAfter]

theorem surfaceFits_step (s : State) (e : Event) (h : SurfaceFits s) :
    SurfaceFits (step s e) := by
  cases e with
  | frame env =>
    by_cases h0 : s.pendingLoops = 0
    · simpa [step, h0] using h
    · cases hp : s.paused
      · exact surfaceFits_append s _ (frameCalls s ++ [Call.rafLoop]) h
          (by simp [step, h0, renderLoop_eq]) (by simp [step, h0, renderLoop_eq])
          (by simp [step, h0, renderLoop_eq]) (by simp [step, h0, renderLoop_eq])
          (by simp [step, h0, renderLoop_eq, hp, frameCalls])
          (by simp [frameCalls, drawsFresh]) (by simp [frameCalls, viewAfter])
      · exact surfaceFits_append s _ (frameCalls s) h
          (by simp [step, h0, renderLoop_eq]) (by simp [step, h0, renderLoop_eq])
          (by simp [step, h0, renderLoop_eq]) (by simp [step, h0, renderLoop_eq])
          (by simp [step, h0, renderLoop_eq, hp, frameCalls])
          (by simp [frameCalls, drawsFresh]) (by simp [frameCalls, viewAfter])
  | frameThrows env ph =>
    by_cases h0 : s.pendingLoops = 0
    · simpa [step, h0] using h
    · exact surfaceFits_append s _ (if ph = Phase.draw then [Call.tick] else []) h
        (by simp [step, h0, renderLoopThrows_eq]) (by simp [step, h0, renderLoopThrows_eq])
        (by simp [step, h0, renderLoopThrows_eq]) (by simp [step, h0, renderLoopThrows_eq])
        (by simp [step, h0, renderLoopThrows_eq])
        (by cases ph <;> simp [drawsFresh]) (by cases ph <;> simp [viewAfter])
  | drawFrame =>
    by_cases h0 : s.pendingDraws = 0
    · simpa [step, h0] using h
    · exact surfaceFits_append s _
        [Call.putImageData s.canvasPtr (WIDTH * HEIGHT * s.CELL_SIZE * s.CELL_SIZE * 4)
          (WIDTH * s.CELL_SIZE)] h
        (by simp [step, h0, drawUniverseCanvas]) (by simp [step, h0, drawUniverseCanvas])
        (by simp [step, h0, drawUniverseCanvas]) (by simp [step, h0, drawUniverseCanvas])
        (by simp [step, h0, drawUniverseCanvas])
        (by simp [drawsFresh]) (by simp [viewAfter])
  | pointerdown p got =>
    exact surfaceFits_append s _
      [Call.get (cellX s p) (cellY s p), Call.set (cellX s p) (cellY s p) (paintValue got)] h
      (by simp [step, onPointerDown]) (by simp [step, onPointerDown])
      (by simp [step, onPointerDown]) (by simp [step, onPointerDown])
      (by simp [step, onPointerDown, cellX, cellY])
      (by simp [drawsFresh]) (by simp [viewAfter])
  | pointermove p =>
    cases hd : s.drawing
    · simpa [step, onPointerMove, hd] using h
    · exact surfaceFits_append s _
        [Call.set (cellX s p) (cellY s p) s.cellState, Call.rafDraw] h
        (by simp [step, onPointerMove, requestDraw, hd])
        (by simp [step, onPointerMove, requestDraw, hd])
        (by simp [step, onPointerMove, requestDraw, hd])
        (by simp [step, onPointerMove, requestDraw, hd])
        (by simp [step, onPointerMove, requestDraw, hd])
        (by simp [drawsFresh]) (by simp [viewAfter])
  | pointerup =>
    cases hd : s.drawing
    · simpa [step, onPointerUp, hd] using h
    · exact surfaceFits_append s _
        (if s.wasPaused || s.running then [] else [Call.rafLoop]) h
        (by cases hw : s.wasPaused <;> cases hr : s.running <;>
          simp [step, onPointerUp, requestRenderLoop, hd, hw, hr])
        (by cases hw : s.wasPaused <;> cases hr : s.running <;>
          simp [step, onPointerUp, requestRenderLoop, hd, hw, hr])
        (by cases hw : s.wasPaused <;> cases hr : s.running <;>
          simp [step, onPointerUp, requestRenderLoop, hd, hw, hr])
        (by cases hw : s.wasPaused <;> cases hr : s.running <;>
          simp [step, onPointerUp, requestRenderLoop, hd, hw, hr])
        (by cases hw : s.wasPaused <;> cases hr : s.running <;>
          simp [step, onPointerUp, requestRenderLoop, hd, hw, hr])
        (by cases hw : s.wasPaused <;> cases hr : s.running <;> simp [drawsFresh])
        (by cases hw : s.wasPaused <;> cases hr : s.running <;> simp [viewAfter])
  | tickClick env =>
    cases hp : s.paused
    · simpa [step, onTickClick, hp] using h
    · exact surfaceFits_append s _ (frameCalls s) h
        (by simp [step, onTickClick, hp, renderLoop_eq])
        (by simp [step, onTickClick, hp, renderLoop_eq])
        (by simp [step, onTickClick, hp, renderLoop_eq])
        (by simp [step, onTickClick, hp, renderLoop_eq])
        (by simp [step, onTickClick, hp, renderLoop_eq])
        (by simp [frameCalls, drawsFresh]) (by simp [frameCalls, viewAfter])
  | pauseClick =>
    exact surfaceFits_append s _
      (if s.paused && !s.running then [Call.rafLoop] else []) h
      (by cases hp : s.paused <;> cases hr : s.running <;>
        simp [step, pause, requestRenderLoop, hp, hr])
      (by cases hp : s.paused <;> cases hr : s.running <;>
        simp [step, pause, requestRenderLoop, hp, hr])
      (by cases hp : s.paused <;> cases hr : s.running <;>
        simp [step, pause, requestRenderLoop, hp, hr])
      (by cases hp : s.paused <;> cases hr : s.running <;>
        simp [step, pause, requestRenderLoop, hp, hr])
      (by cases hp : s.paused <;> cases hr : s.running <;>
        simp [step, pause, requestRenderLoop, hp, hr])
      (by cases hp : s.paused <;> cases hr : s.running <;> simp [drawsFresh])
      (by cases hp : s.paused <;> cases hr : s.running <;> simp [viewAfter])
  | wheel d =>
    by_cases ha : d < 0 ∧ s.CELL_SIZE < 12
    · simp only [step, onWheel, if_pos ha]
      exact surfaceFits_resize s _ _ h
    · by_cases hb : d > 0 ∧ s.CELL_SIZE > 1
      · simp only [step, onWheel, if_neg ha, if_pos hb]
        exact surfaceFits_resize s _ _ h
      · simp only [step, onWheel, if_neg ha, if_neg hb]
        exact h
  | windowResize w =>
    by_cases hc : (!s.resized) = true ∧ divTrunc w WIDTH > 0 ∧ divTrunc w WIDTH ≠ s.CELL_SIZE
    · simp only [step, onWindowResize, if_pos hc]
      exact surfaceFits_resize s _ _ h
    · simp only [step, onWindowResize, if_neg hc]
      exact h
  | throughputTimer =>
    by_cases hc : s.counter = 0
    · simpa [step, throughputFlush, hc] using h
    · simpa [step, throughputFlush, hc, SurfaceFits] using h
  | fpsTimer now => simpa [step, fpsFlush, SurfaceFits] using h

theorem surfaceFits_run (s : State) (es : List Event) (h : SurfaceFits s) :
    SurfaceFits (run s es) := by
  induction es generalizing s with
  | nil => simpa [run_nil] using h
  | cons e es ih =>
    rw [run_cons]
    exact ih _ (surfaceFits_step s e h)

/-- C18: in every state reached from startup the canvas measures
`CELL_SIZE * 512` by `CELL_SIZE * 512`, every `putImageData` call made so far
used the view pointer fetched by the latest `universe.canvas()` call with no
engine resize after that fetch, and `canvasPtr` is that pointer now.  A size
change `resize(n, lock)` sets `CELL_SIZE` and the canvas size, calls
`universe.resize(n)`, then `universe.canvas()`, and redraws once exactly when
`paused == true`; the wheel and viewport-resize handlers change the state only
through `resize`. -/
theorem surface_and_view_stay_in_step (b : Boot) (es : List Event) :
    (run (init b) es).canvasWidth = (run (init b) es).CELL_SIZE * 512 ∧
    (run (init b) es).canvasHeight = (run (init b) es).CELL_SIZE * 512 ∧
    drawsFresh none 0 (run (init b) es).trace = true ∧
    viewAfter none 0 (run (init b) es).trace = some (run (init b) es).canvasPtr ∧
    (∀ (t : State) (n : Int) (lock : Bool),
      (resize t n lock).CELL_SIZE = n ∧
      (resize t n lock).canvasWidth = n * 512 ∧
      (resize t n lock).canvasHeight = n * 512 ∧
      (resize t n lock).canvasPtr = t.trace.length + 1 ∧
      (resize t n lock).trace = t.trace ++ [Call.resize n, Call.canvas] ++
        (if t.paused then
          [Call.putImageData (t.trace.length + 1) (512 * 512 * n * n * 4) (512 * n)]
         else [])) ∧
    (∀ (t : State) (d : Int), onWheel t d = t ∨ ∃ n, onWheel t d = resize t n true) ∧
    (∀ (t : State) (w : Int),
      onWindowResize t w = t ∨ ∃ n, onWindowResize t w = resize t n false) := by
  obtain ⟨h1, h2, h3, h4⟩ := surfaceFits_run (init b) es (surfaceFits_init b)
  refine ⟨h1, h2, h3, h4, ?_, ?_, ?_⟩
  · intro t n lock
    rw [resize_eq]
    exact ⟨rfl, rfl, rfl, rfl, rfl⟩
  · intro t d
    by_cases ha : d < 0 ∧ t.CELL_SIZE < 12
    · exact Or.inr ⟨t.CELL_SIZE + 1, by simp only [onWheel, if_pos ha]⟩
    · by_cases hb : d > 0 ∧ t.CELL_SIZE > 1
      · exact Or.inr ⟨t.CELL_SIZE - 1, by simp only [onWheel, if_neg ha, if_pos hb]⟩
      · exact Or.inl (by simp only [onWheel, if_neg ha, if_neg hb])
  · intro t w
    by_cases hc : (!t.resized) = true ∧ divTrunc w WIDTH > 0 ∧ divTrunc w WIDTH ≠ t.CELL_SIZE
    · exact Or.inr ⟨divTrunc w WIDTH, by simp only [onWindowResize, if_pos hc]⟩
    · exact Or.inl (by simp only [onWindowResize, if_neg hc])

/-! ## Metrics timers -/

theorem canvas_total_step (s : State) (e : Event) (h : s.canvas_total = 0) :
    (step s e).canvas_total = 0 := by
  cases e with
  | frame env =>
    by_cases h0 : s.pendingLoops = 0 <;> simp_all [step, renderLoop_eq]
  | frameThrows env ph =>
    by_cases h0 : s.pendingLoops = 0 <;> simp_all [step, renderLoopThrows_eq]
  | drawFrame =>
    by_cases h0 : s.pendingDraws = 0 <;> simp_all [step, drawUniverseCanvas]
  | pointerdown p got => simp_all [step, onPointerDown]
  | pointermove p =>
    cases hd : s.drawing <;> simp_all [step, onPointerMove, requestDraw]
  | pointerup =>
    cases hd : s.drawing <;> cases hw : s.wasPaused <;> cases hr : s.running <;>
      simp_all [step, onPointerUp, requestRenderLoop]
  | tickClick env =>
    cases hp : s.paused <;> simp_all [step, onTickClick, renderLoop_eq]
  | pauseClick =>
    cases hp : s.paused <;> cases hr : s.running <;>
      simp_all [step, pause, requestRenderLoop]
  | wheel d =>
    by_cases ha : d < 0 ∧ s.CELL_SIZE < 12
    · simp only [step, onWheel, if_pos ha, resize_eq, h]
    · by_cases hb : d > 0 ∧ s.CELL_SIZE > 1
      · simp only [step, onWheel, if_neg ha, if_pos hb, resize_eq, h]
      · simp only [step, onWheel, if_neg ha, if_neg hb, h]
  | windowResize w =>
    by_cases hc : (!s.resized) = true ∧ divTrunc w WIDTH > 0 ∧ divTrunc w WIDTH ≠ s.CELL_SIZE
    · simp only [step, onWindowResize, if_pos hc, resize_eq, h]
    · simp only [step, onWindowResize, if_neg hc, h]
  | throughputTimer =>
    by_cases hc : s.counter = 0 <;> simp_all [step, throughputFlush]
  | fpsTimer now => simp_all [step, fpsFlush]

theorem canvas_total_run (s : State) (es : List Event) (h : s.canvas_total = 0) :
    (run s es).canvas_total = 0 := by
  induction es generalizing s with
  | nil => simpa [run_nil] using h
  | cons e es ih =>
    rw [run_cons]
    exact ih _ (canvas_total_step s e h)

/-- C19: in every state reached from startup the throughput flush changes
nothing when `counter == 0` and otherwise sets exactly `counter`, `tick_total`
and `draw_total` to 0 (`canvas_total`, which it also assigns, is 0 already); the
display-rate flush sets exactly `fpsCounter` to 0 and `fpsStart` to the clock
reading.  In every state whatsoever both flushes leave `paused`, `running`,
`drawing`, `wasPaused`, `cellState`, `CELL_SIZE`, `resized`, the pending frames
and the trace, hence the generation, as they are. -/
theorem metrics_flushes_touch_metrics_only (b : Boot) (es : List Event) (now : Nat) :
    ((run (init b) es).counter = 0 → throughputFlush (run (init b) es) = run (init b) es) ∧
    ((run (init b) es).counter ≠ 0 →
      throughputFlush (run (init b) es)
        = { run (init b) es with counter := 0, tick_total := 0, draw_total := 0 }) ∧
    fpsFlush (run (init b) es) now = { run (init b) es with fpsCounter := 0, fpsStart := now } ∧
    (∀ t : State,
      (throughputFlush t).paused = t.paused ∧ (throughputFlush t).running = t.running ∧
      (throughputFlush t).drawing = t.drawing ∧ (throughputFlush t).wasPaused = t.wasPaused ∧
      (throughputFlush t).cellState = t.cellState ∧
      (throughputFlush t).CELL_SIZE = t.CELL_SIZE ∧ (throughputFlush t).resized = t.resized ∧
      (throughputFlush t).pendingLoops = t.pendingLoops ∧
      (throughputFlush t).pendingDraws = t.pendingDraws ∧
      (throughputFlush t).trace = t.trace ∧ generation (throughputFlush t) = generation t) ∧
    (∀ t : State,
      (fpsFlush t now).paused = t.paused ∧ (fpsFlush t now).running = t.running ∧
      (fpsFlush t now).drawing = t.drawing ∧ (fpsFlush t now).wasPaused = t.wasPaused ∧
      (fpsFlush t now).cellState = t.cellState ∧
      (fpsFlush t now).CELL_SIZE = t.CELL_SIZE ∧ (fpsFlush t now).resized = t.resized ∧
      (fpsFlush t now).pendingLoops = t.pendingLoops ∧
      (fpsFlush t now).pendingDraws = t.pendingDraws ∧
      (fpsFlush t now).trace = t.trace ∧ generation (fpsFlush t now) = generation t) := by
  have hct : (run (init b) es).canvas_total = 0 :=
    canvas_total_run (init b) es (by simp [init, requestRenderLoop, drawUniverseCanvas])
  refine ⟨?_, ?_, rfl, ?_, ?_⟩
  · intro hc
    simp [throughputFlush, hc]
  · intro hc
    simp [throughputFlush, hc, hct]
  · intro t
    by_cases hc : t.counter = 0 <;> simp [throughputFlush, hc, generation]
  · intro t
    simp [fpsFlush, generation]

/-- Witness for C19: after one frame the throughput flush clears the three
totals and nothing else. -/
theorem metrics_flushes_touch_metrics_only_witness :
    (run (init boot0) [Event.frame env0]).counter ≠ 0 ∧
    throughputFlush (run (init boot0) [Event.frame env0])
      = { run (init boot0) [Event.frame env0] with
          counter := 0, tick_total := 0, draw_total := 0 } :=
  ⟨by decide,
   (metrics_flushes_touch_metrics_only boot0 [Event.frame env0] 0).2.1 (by decide)⟩

/-! ## A second press during a gesture -/

/-- C20: in a state with `drawing == true` and `paused == true` a further
`pointerdown` sets `wasPaused` to true and `cellState` to the paint value of the
newly pressed cell; after the moves and the release that follow, `paused` is
still true, `drawing` is false and no frame has been requested.  So a press, a
second press and a release that start while playing end paused, with no frame
requested. -/
theorem second_press_overrides (s : State) (p : Pointer) (got : Cell) (ps : List Pointer)
    (_hd : s.drawing = true) (hp : s.paused = true) :
    (onPointerDown s p got).wasPaused = true ∧
    (onPointerDown s p got).cellState = paintValue got ∧
    (onPointerDown s p got).trace = s.trace ++
      [Call.get (cellX s p) (cellY s p), Call.set (cellX s p) (cellY s p) (paintValue got)] ∧
    (run s (gesture p got ps)).paused = true ∧
    (run s (gesture p got ps)).drawing = false ∧
    loopRequests (run s (gesture p got ps)) = loopRequests s ∧
    (run s (gesture p got ps)).pendingLoops = s.pendingLoops ∧
    (∀ (s0 : State) (p1 : Pointer) (g1 : Cell), s0.paused = false →
      (run s0 (Event.pointerdown p1 g1 :: gesture p got ps)).paused = true ∧
      loopRequests (run s0 (Event.pointerdown p1 g1 :: gesture p got ps)) = loopRequests s0) := by
  obtain ⟨c1, c2⟩ := count_gestureCalls s p got ps
  refine ⟨?_, ?_, ?_, ?_, ?_, ?_, ?_, ?_⟩
  · simp [onPointerDown, hp]
  · simp [onPointerDown]
  · simp [onPointerDown, cellX, cellY]
  · rw [gesture_run]
    exact hp
  · rw [gesture_run]
  · rw [gesture_run]
    simp [hp, loopRequests, c2]
  · rw [gesture_run]
    simp [hp]
  · intro s0 p1 g1 h0
    obtain ⟨d1, d2⟩ := count_gestureCalls (step s0 (Event.pointerdown p1 g1)) p got ps
    rw [run_cons, gesture_run]
    refine ⟨by simp [step, onPointerDown], ?_⟩
    simp only [loopRequests] at *
    simp only [List.count_append, d2]
    simp [step, onPointerDown]

/-- Witness for C20: startup (playing), a press, a second press, a release. -/
theorem second_press_overrides_witness :
    (onPointerDown (init boot0) press0 Cell.Dead).drawing = true ∧
    (onPointerDown (init boot0) press0 Cell.Dead).paused = true ∧
    (init boot0).paused = false ∧
    (run (onPointerDown (init boot0) press0 Cell.Dead) (gesture move0 Cell.Alive [])).paused
      = true ∧
    loopRequests (run (onPointerDown (init boot0) press0 Cell.Dead)
      (gesture move0 Cell.Alive []))
      = loopRequests (onPointerDown (init boot0) press0 Cell.Dead) :=
  ⟨by decide, by decide, by decide,
   (second_press_overrides (onPointerDown (init boot0) press0 Cell.Dead) move0 Cell.Alive []
     (by decide) (by decide)).2.2.2.1,
   (second_press_overrides (onPointerDown (init boot0) press0 Cell.Dead) move0 Cell.Alive []
     (by decide) (by decide)).2.2.2.2.2.1⟩

/-! ## Paint gestures interleaved with other events -/

/-- What an event other than a press does to the paint state: it keeps
`cellState`, it keeps `drawing` unless it is a release, it never sets `drawing`,
and the only cell write it makes is that of a move during a gesture. -/
theorem step_paint (t : State) (e : Event) (h : e.isPress = false) :
    (step t e).cellState = t.cellState ∧
    (e.isRelease = false → (step t e).drawing = t.drawing) ∧
    (t.drawing = false → (step t e).drawing = false) ∧
    writes (step t e).trace = writes t.trace ++ stepWrites t e := by
  cases e with
  | frame env =>
    by_cases h0 : t.pendingLoops = 0
    · simp [step, h0, stepWrites]
    · cases hp : t.paused <;>
        simp [step, h0, renderLoop_eq, hp, stepWrites, writes_append, frameCalls, writes]
  | frameThrows env ph =>
    by_cases h0 : t.pendingLoops = 0
    · simp [step, h0, stepWrites]
    · cases ph <;> simp [step, h0, renderLoopThrows_eq, stepWrites, writes_append, writes]
  | drawFrame =>
    by_cases h0 : t.pendingDraws = 0
    · simp [step, h0, stepWrites]
    · simp [step, h0, drawUniverseCanvas, stepWrites, writes_append, writes]
  | pointerdown p got => simp [Event.isPress] at h
  | pointermove p =>
    cases hd : t.drawing
    · simp [step, onPointerMove, hd, stepWrites]
    · simp [step, onPointerMove, requestDraw, hd, stepWrites, writes_append, writes,
        Event.isRelease]
  | pointerup =>
    cases hd : t.drawing
    · simp [step, onPointerUp, hd, stepWrites, Event.isRelease]
    · cases hw : t.wasPaused <;> cases hr : t.running <;>
        simp [step, onPointerUp, requestRenderLoop, hd, hw, hr, stepWrites, writes_append,
          writes, Event.isRelease]
  | tickClick env =>
    cases hp : t.paused
    · simp [step, onTickClick, hp, stepWrites]
    · simp [step, onTickClick, renderLoop_eq, hp, stepWrites, writes_append, frameCalls, writes]
  | pauseClick =>
    cases hp : t.paused <;> cases hr : t.running <;>
      simp [step, pause, requestRenderLoop, hp, hr, stepWrites, writes_append, writes]
  | wheel d =>
    by_cases ha : d < 0 ∧ t.CELL_SIZE < 12
    · have hstep : step t (Event.wheel d) = resize t (t.CELL_SIZE + 1) true := by
        simp only [step, onWheel, if_pos ha]
      rw [hstep, resize_eq]
      cases hp : t.paused <;> simp [stepWrites, writes_append, writes]
    · by_cases hb : d > 0 ∧ t.CELL_SIZE > 1
      · have hstep : step t (Event.wheel d) = resize t (t.CELL_SIZE - 1) true := by
          simp only [step, onWheel, if_neg ha, if_pos hb]
        rw [hstep, resize_eq]
        cases hp : t.paused <;> simp [stepWrites, writes_append, writes]
      · have hstep : step t (Event.wheel d) = t := by
          simp only [step, onWheel, if_neg ha, if_neg hb]
        rw [hstep]
        simp [stepWrites]
  | windowResize w =>
    by_cases hc : (!t.resized) = true ∧ divTrunc w WIDTH > 0 ∧ divTrunc w WIDTH ≠ t.CELL_SIZE
    · have hstep : step t (Event.windowResize w) = resize t (divTrunc w WIDTH) false := by
        simp only [step, onWindowResize, if_pos hc]
      rw [hstep, resize_eq]
      cases hp : t.paused <;> simp [stepWrites, writes_append, writes]
    · have hstep : step t (Event.windowResize w) = t := by
        simp only [step, onWindowResize, if_neg hc]
      rw [hstep]
      simp [stepWrites]
  | throughputTimer =>
    by_cases hc : t.counter = 0 <;> simp [step, throughputFlush, hc, stepWrites]
  | fpsTimer now => simp [step, fpsFlush, stepWrites]

theorem release_ends_drawing (t : State) : (step t Event.pointerup).drawing = false := by
  cases hd : t.drawing <;> cases hw : t.wasPaused <;> cases hr : t.running <;>
    simp [step, onPointerUp, requestRenderLoop, hd, hw, hr]

/-- While a gesture is active and until its release, whatever events are run in
between, the writes are those of the moves, all with the gesture's value. -/
theorem drag_writes (t : State) (es : List Event) (hd : t.drawing = true)
    (hes : ∀ e ∈ es, e.isPress = false ∧ e.isRelease = false) :
    (run t es).drawing = true ∧ (run t es).cellState = t.cellState ∧
    writes (run t es).trace
      = writes t.trace ++ (moveCells t es).map (fun c => (c.1, c.2, t.cellState)) := by
  induction es generalizing t with
  | nil => simp [run_nil, moveCells, hd]
  | cons e es ih =>
    obtain ⟨he1, he2⟩ := hes e (List.mem_cons_self _ _)
    obtain ⟨s1, s2, _, s4⟩ := step_paint t e he1
    have hd1 : (step t e).drawing = true := by rw [s2 he2]; exact hd
    obtain ⟨a, b, c⟩ := ih (step t e) hd1 (fun x hx => hes x (List.mem_cons_of_mem _ hx))
    rw [run_cons]
    refine ⟨a, by rw [b, s1], ?_⟩
    rw [c, s4, s1]
    cases e <;> simp [stepWrites, moveCells, hd]

/-- After the release and until the next press nothing is written. -/
theorem idle_writes (t : State) (fs : List Event) (hd : t.drawing = false)
    (hfs : ∀ e ∈ fs, e.isPress = false) :
    (run t fs).drawing = false ∧ (run t fs).cellState = t.cellState ∧
    writes (run t fs).trace = writes t.trace := by
  induction fs generalizing t with
  | nil => simp [run_nil, hd]
  | cons e fs ih =>
    have he1 := hfs e (List.mem_cons_self _ _)
    obtain ⟨s1, _, s3, s4⟩ := step_paint t e he1
    obtain ⟨a, b, c⟩ := ih (step t e) (s3 hd) (fun x hx => hfs x (List.mem_cons_of_mem _ hx))
    rw [run_cons]
    refine ⟨a, by rw [b, s1], ?_⟩
    rw [c, s4]
    cases e <;> simp [stepWrites, hd]

/-- C9: a gesture is a press at `p0` reading `got`, then any events `es` other
than a press or a release (moves, frames, draw callbacks, timers, zoom, pause
clicks), then the release, then any events `fs` other than a press.  The cell
writes the controller makes from the press on are, in order, one write to the
cell of `p0` and one write to the cell of each move in `es`, each computed with
the cell size current at that move, all with the value `paintValue got`, which
is `Dead` when `got` is `Alive` and `Alive` otherwise.  The release and `fs` add
no write.  `cellState` holds that value throughout; no event other than a press
changes `cellState`, and none other than a press or a move writes a cell.  A
press followed directly by a release makes exactly one write, and for a press,
moves over `ps` and a release with nothing in between the written cells are
those of `p0` and `ps`. -/
theorem gesture_writes (s : State) (p0 : Pointer) (got : Cell) (es fs : List Event)
    (ps : List Pointer)
    (hes : ∀ e ∈ es, e.isPress = false ∧ e.isRelease = false)
    (hfs : ∀ e ∈ fs, e.isPress = false) :
    writes (run (step s (Event.pointerdown p0 got)) es).trace
      = writes s.trace ++ (cellX s p0, cellY s p0, paintValue got) ::
          (moveCells (step s (Event.pointerdown p0 got)) es).map
            (fun c => (c.1, c.2, paintValue got)) ∧
    (run (step s (Event.pointerdown p0 got)) es).cellState = paintValue got ∧
    writes (run (step s (Event.pointerdown p0 got)) (es ++ Event.pointerup :: fs)).trace
      = writes s.trace ++ (cellX s p0, cellY s p0, paintValue got) ::
          (moveCells (step s (Event.pointerdown p0 got)) es).map
            (fun c => (c.1, c.2, paintValue got)) ∧
    (run (step s (Event.pointerdown p0 got)) (es ++ Event.pointerup :: fs)).cellState
      = paintValue got ∧
    paintValue Cell.Alive = Cell.Dead ∧ paintValue Cell.Dead = Cell.Alive ∧
    (∀ (t : State) (e : Event), e.isPress = false → (step t e).cellState = t.cellState) ∧
    (∀ (t : State) (e : Event), e.isPress = false → (∀ p, e ≠ Event.pointermove p) →
      writes (step t e).trace = writes t.trace) ∧
    writes (run s [Event.pointerdown p0 got, Event.pointerup]).trace
      = writes s.trace ++ [(cellX s p0, cellY s p0, paintValue got)] ∧
    writes (run s (gesture p0 got ps)).trace
      = writes s.trace ++ (p0 :: ps).map (fun p => (cellX s p, cellY s p, paintValue got)) := by
  have hdown : (step s (Event.pointerdown p0 got)).drawing = true ∧
      (step s (Event.pointerdown p0 got)).cellState = paintValue got ∧
      writes (step s (Event.pointerdown p0 got)).trace
        = writes s.trace ++ [(cellX s p0, cellY s p0, paintValue got)] := by
    simp [step, onPointerDown, writes_append, writes, cellX, cellY]
  obtain ⟨d1, d2, d3⟩ := hdown
  obtain ⟨a, b, c⟩ := drag_writes (step s (Event.pointerdown p0 got)) es d1 hes
  rw [d2] at b c
  rw [d3] at c
  have hup := step_paint (run (step s (Event.pointerdown p0 got)) es) Event.pointerup rfl
  obtain ⟨u1, _, _, u4⟩ := hup
  have hupd : (step (run (step s (Event.pointerdown p0 got)) es) Event.pointerup).drawing
      = false := release_ends_drawing _
  obtain ⟨_, i2, i3⟩ :=
    idle_writes (step (run (step s (Event.pointerdown p0 got)) es) Event.pointerup) fs hupd hfs
  have hc : writes (run (step s (Event.pointerdown p0 got)) es).trace
      = writes s.trace ++ (cellX s p0, cellY s p0, paintValue got) ::
          (moveCells (step s (Event.pointerdown p0 got)) es).map
            (fun c => (c.1, c.2, paintValue got)) := by
    rw [c]; simp
  have hw : ∀ qs, writes (run s (gesture p0 got qs)).trace
      = writes s.trace ++ (p0 :: qs).map (fun p => (cellX s p, cellY s p, paintValue got)) := by
    intro qs
    rw [gesture_run]
    simp only [writes_append, writes_gestureCalls]
    split_ifs <;> simp [writes]
  refine ⟨hc, b, ?_, ?_, by decide, by decide, ?_, ?_, ?_, hw ps⟩
  · rw [run_append, run_cons, i3, u4, hc]
    simp [stepWrites]
  · rw [run_append, run_cons, i2, u1, b]
  · intro t e he
    exact (step_paint t e he).1
  · intro t e he hm
    rw [(step_paint t e he).2.2.2]
    cases e <;> simp [stepWrites]
    exact absurd rfl (hm _)
  · have := hw []
    simpa [gesture] using this

/-- Witness for C9: a press while playing, then a move, the pending frame, a zoom
step, a second move and a draw callback, then the release and a stray move. -/
theorem gesture_writes_witness :
    (∀ e ∈ [Event.pointermove move0, Event.frame env0, Event.wheel (-1),
        Event.pointermove press0, Event.drawFrame],
      e.isPress = false ∧ e.isRelease = false) ∧
    (∀ e ∈ [Event.pointermove move0], e.isPress = false) ∧
    (run (step (init boot0) (Event.pointerdown press0 Cell.Dead))
      ([Event.pointermove move0, Event.frame env0, Event.wheel (-1),
        Event.pointermove press0, Event.drawFrame] ++
        Event.pointerup :: [Event.pointermove move0])).cellState = paintValue Cell.Dead :=
  ⟨by decide, by decide,
   (gesture_writes (init boot0) press0 Cell.Dead
     [Event.pointermove move0, Event.frame env0, Event.wheel (-1),
      Event.pointermove press0, Event.drawFrame]
     [Event.pointermove move0] [] (by decide) (by decide)).2.2.2.1⟩

end GameOfLife
